import Mathlib

/-!
# Verification of the suanpan Abaqus `.fil` decoder (`src/suanpan/abqfil.py`)

Shallow embedding of the binary decoding engine.  The on-disk stream is a
flat sequence of 8-byte words; a logical record is `(rlen, rkey, payload)`
where `rlen` counts words including the two header words.  We embed each
record as its type code plus its payload words (each word an `Int`, the
signed 64-bit value stored on disk); the declared length is recovered as
`payload.length + 2`, exactly the relation the wire format guarantees.

The low-level module `ftnfil` of this repository is not in `src/` (only its
caller `abqfil.py` is), so its pieces are modelled from the spec:
* `AWL` (the word width, 8 bytes) — spec §2/§4.2; `abqfil.py` hard-codes
  8-byte words in all its own dtype arithmetic (e.g. the 1502 facet dtype);
* `rstream` — spec §4.3: yields `(pos, rtyp, rlen, payload)` per record;
  exhaustion mid-section is a truncation error;
* `rstream.send(())` / `datablock` — spec §4.3 `advance_past_current` +
  `span_view`: a run of consecutive records with identical `(type, length)`
  is sliced as one contiguous multi-row block (one row per record);
* `rstream.send(type_set)` — spec §4.3 `skip_to`: discard records whose
  type is not in the set;
* `incstart` — spec §4.4 increment indexing: one boundary per
  increment-start (2000) record, with its scalar-metadata payload.
The physical Fortran control-word framing and the `pos % AWR == 0`
alignment asserts live entirely in the missing `ftnfil` layer and are
abstracted away by the record-level model.

Python failure modes are mapped to a typed error (spec §7):
`ValueError` for an unrecognized `(type, length)` ↦ `unknownRecord`;
`AssertionError` on a structural invariant ↦ `structural`;
`NotImplementedError` for a non-element output kind ↦
`unsupportedOutputKind`; generator exhaustion ↦ `truncated`; numpy
shape/broadcast failures ↦ `valueError`; out-of-range indexing ↦
`indexError`.
-/

/-- Decode errors (spec §7 taxonomy, plus the raw Python failure modes
`valueError`/`indexError` for numpy shape and indexing faults). -/
inductive DecErr where
  | unknownRecord (rtyp rlen : Int)
  | structural
  | unsupportedOutputKind (outtyp : Int)
  | truncated
  | valueError
  | indexError
deriving Repr, DecidableEq

/-- Modelled from the spec: `ftnfil.AWL`, the wire format's word width in
bytes.  `abqfil.py` itself hard-codes 8-byte words in the 1502 facet dtype
(`itemsize: 8 * (s_rlen - 2)`) and the output-row offsets. -/
def AWL : Nat := 8

/-- `_pad` of `abqfil.py`: minimum multiple of `AWL` ≥ `x`. -/
def _pad (x : Nat) : Nat := x + (AWL - x % AWL) % AWL

/-- low unsigned 32-bit half of a 64-bit word: numpy `.view("=2u4")[..., 0]`
on a little-endian 8-byte word. -/
def lowU32 (w : Int) : Int := w % (2 ^ 32)

/-- low signed 32-bit half of a 64-bit word: an `"i4"` field placed at the
start of an 8-byte word. -/
def lowI32 (w : Int) : Int := (w + 2 ^ 31) % (2 ^ 32) - 2 ^ 31

/-- `_issorted` of `abqfil.py`: true if the vector is non-decreasing. -/
def _issorted : List Int → Bool
  | a :: b :: t => decide (a ≤ b) && _issorted (b :: t)
  | _ => true

/-- `_issorted_strict` of `abqfil.py`: sorted with no repetitions. -/
def _issorted_strict : List Int → Bool
  | a :: b :: t => decide (a < b) && _issorted_strict (b :: t)
  | _ => true

/-- insert into a sorted list (ascending). -/
def insSorted (x : Int) : List Int → List Int
  | [] => [x]
  | y :: t => if x ≤ y then x :: y :: t else y :: insSorted x t

/-- sort ascending (insertion sort). -/
def sortInts (l : List Int) : List Int := l.foldr insSorted []

/-- `np.unique`: the sorted distinct values of a vector.  (numpy orders the
`S8` element-type tags lexicographically on bytes; the model uses the `Int`
order of the raw words — a fixed total order, which is all the builder's
logic depends on.) -/
def sortedUnique (l : List Int) : List Int := sortInts l.dedup

/-- One field of a numpy structured dtype: name and byte size of its
format (sub-array formats contribute their total byte size). -/
structure NField where
  name : String
  size : Nat
deriving Repr, DecidableEq

/-- A numpy structured dtype as built by `_abq_dtype`: fields, their byte
offsets, and the total itemsize. -/
structure Layout where
  fields : List NField
  offsets : List Nat
  itemsize : Nat
deriving Repr, DecidableEq

/-- running partial sums `accum c [x1, x2, ...] = [c+x1, c+x1+x2, ...]`
(`itertools.accumulate`). -/
def accum (c : Nat) : List Nat → List Nat
  | [] => []
  | x :: xs => (c + x) :: accum (c + x) xs

/-- `_abq_dtype` of `abqfil.py`: offsets are the cumulative sums of the
`AWL`-padded field sizes, the first field at offset 0; itemsize is the full
cumulative sum.  An empty item list is a `ValueError`. -/
def _abq_dtype (items : List NField) : Except DecErr Layout :=
  match items with
  | [] => .error .valueError
  | _ =>
    let cumsum := accum 0 (items.map (fun i => _pad i.size))
    .ok { fields := items
          offsets := 0 :: cumsum.dropLast
          itemsize := cumsum.getLastD 0 }

/-- field lists of `_record_dtype`, one per supported `(rtyp, rlen)` pair;
every other pair is the `UnknownRecordError` of the spec (a `ValueError`
in the source).  Byte sizes: `S8` = 8, `S16` = 16, `i4`/`u4` = 4,
`i8`/`f8` = 8, `("i8", k)` = 8k, `S{n}` = n. -/
def _record_items (rtyp rlen : Int) : Except DecErr (List NField) :=
  let dlen := rlen - 2
  if rtyp = 1501 ∧ 5 ≤ dlen then
    .ok ([⟨"name", 8⟩, ⟨"sdim", 4⟩, ⟨"stype", 4⟩, ⟨"nfacet", 4⟩, ⟨"nmaster", 4⟩] ++
      (List.range (dlen - 5).toNat).map (fun i => ⟨"msurf" ++ toString (i + 1), 8⟩))
  else if rtyp = 1900 ∧ 2 < dlen then
    .ok [⟨"elnum", 8⟩, ⟨"eltyp", 8⟩, ⟨"ninc", 8 * (dlen - 2).toNat⟩]
  else if rtyp = 1901 ∧ 1 < dlen then
    .ok [⟨"nnum", 8⟩, ⟨"coord", 8 * (dlen - 1).toNat⟩]
  else if rtyp = 1911 ∧ dlen = 3 then
    .ok [⟨"out_type", 4⟩, ⟨"out_set", 8⟩, ⟨"out_element", 8⟩]
  else if rtyp = 1921 ∧ dlen = 7 then
    .ok [⟨"ver", 8⟩, ⟨"date", 16⟩, ⟨"time", 8⟩, ⟨"nelm", 4⟩, ⟨"nnod", 4⟩, ⟨"elsiz", 8⟩]
  else if rtyp = 1940 ∧ 1 < dlen then
    .ok [⟨"key", 4⟩, ⟨"label", (dlen - 1).toNat * AWL⟩]
  else if rtyp = 2000 ∧ dlen = 21 then
    .ok [⟨"ttime", 8⟩, ⟨"stime", 8⟩, ⟨"cratio", 8⟩, ⟨"sampl", 8⟩, ⟨"procid", 4⟩,
      ⟨"step", 4⟩, ⟨"incr", 4⟩, ⟨"lpert", 4⟩, ⟨"lpf", 8⟩, ⟨"freq", 8⟩, ⟨"tinc", 8⟩,
      ⟨"subheading", 80⟩]
  else .error (.unknownRecord rtyp rlen)

/-- `_record_dtype` of `abqfil.py`: the layout for a `(rtyp, rlen)` pair,
with the source's closing assert that the itemsize equals the declared
payload size `(rlen - 2) * AWL`. -/
def _record_dtype (rtyp rlen : Int) : Except DecErr Layout :=
  Except.bind (_record_items rtyp rlen) (fun items =>
    Except.bind (_abq_dtype items) (fun dt =>
      if (dt.itemsize : Int) = (rlen - 2) * (AWL : Int) then .ok dt
      else .error .structural))

/-- The supported set of `(type_code, length)` pairs — the guards of the
`match` in `_record_dtype`, transcribed. -/
def supportedPair (rtyp rlen : Int) : Prop :=
  let dlen := rlen - 2
  (rtyp = 1501 ∧ 5 ≤ dlen) ∨ (rtyp = 1900 ∧ 2 < dlen) ∨ (rtyp = 1901 ∧ 1 < dlen) ∨
  (rtyp = 1911 ∧ dlen = 3) ∨ (rtyp = 1921 ∧ dlen = 7) ∨ (rtyp = 1940 ∧ 1 < dlen) ∨
  (rtyp = 2000 ∧ dlen = 21)

instance (rtyp rlen : Int) : Decidable (supportedPair rtyp rlen) := by
  unfold supportedPair; infer_instance

/-- One logical record of the stream: type code and payload words.  The
declared record length (in words, including the two header words) is
`rdat.length + 2` — the relation the wire framing guarantees. -/
structure Rec where
  rtyp : Int
  rdat : List Int
deriving Repr, DecidableEq

/-- declared record length in words (payload plus the 2-word header). -/
def Rec.rlen (r : Rec) : Nat := r.rdat.length + 2

/-- the raw words a record occupies on disk: length word, key word,
payload. -/
def Rec.words (r : Rec) : List Int := (r.rlen : Int) :: r.rtyp :: r.rdat

/-- records share a group when type and declared length agree (the run
`rstream.send(())` advances past, sliced by `datablock` as one multi-row
block — modelled from the spec, §4.3 `span_view`). -/
def Rec.sameKind (r x : Rec) : Bool := x.rtyp == r.rtyp && x.rdat.length == r.rdat.length

/-- One element row of a 1900 record: element number, type tag (`S8` word),
incidence list. -/
structure ElRow where
  elnum : Int
  eltyp : Int
  ninc : List Int
deriving Repr, DecidableEq

/-- decode a 1900 record's payload as one element row. -/
def parseEl (r : Rec) : ElRow := ⟨r.rdat.getD 0 0, r.rdat.getD 1 0, r.rdat.drop 2⟩

/-- the `elm` dict of `AbqFil.__init__`: insertion-ordered map from element
type tag to the list of mesh components collected so far. -/
abbrev ElmState := List (Int × List (List ElRow))

/-- `elm.setdefault(t, []).append(comp)`. -/
def elmAppend (st : ElmState) (t : Int) (comp : List ElRow) : ElmState :=
  match st with
  | [] => [(t, [comp])]
  | (k, v) :: rest =>
    if k = t then (k, v ++ [comp]) :: rest else (k, v) :: elmAppend rest t comp

/-- `elm[t]` lookup. -/
def elmFind (st : ElmState) (t : Int) : Option (List (List ElRow)) :=
  match st with
  | [] => none
  | (k, v) :: rest => if k = t then some v else elmFind rest t

/-- `elm[t][-1] = blk`: replace the last component stored for type `t`. -/
def elmSetLast (st : ElmState) (t : Int) (blk : List ElRow) : ElmState :=
  match st with
  | [] => []
  | (k, v) :: rest =>
    if k = t then (k, v.dropLast ++ [blk]) :: rest else (k, v) :: elmSetLast rest t blk

/-- the `for eltyp in np.unique(mesh["eltyp"])` loop body: filter the mesh
component of each type, assert its element numbers strictly increasing,
append it to the state. -/
def elmAccum (mesh : List ElRow) (st : ElmState) : List Int → Except DecErr ElmState
  | [] => .ok st
  | t :: ts =>
    let comp := mesh.filter (fun e => e.eltyp == t)
    if _issorted_strict (comp.map (·.elnum)) then elmAccum mesh (elmAppend st t comp) ts
    else .error .structural

/-- the `while rtyp == 1990` continuation loop of `AbqFil.__init__` (lines
181–190): the last component for the current type must hold exactly one
element; its incidence is extended with the continuation payload and the
row is rebuilt with `_record_dtype(1900, len(ninc) + 2)` — the rebuilt
dtype's incidence field width (in words) is read back from the layout, and
the `np.array` construction fails unless the merged incidence fits it
exactly (numpy broadcast). -/
def contGo (t : Int) (st : ElmState) : List Rec → Except DecErr (ElmState × List Rec)
  | [] => .error .truncated
  | r :: rest =>
    if r.rtyp ≠ 1990 then .ok (st, r :: rest)
    else
      match elmFind st t with
      | none => .error .structural
      | some blocks =>
        match blocks.getLast? with
        | none => .error .structural
        | some lastB =>
          if lastB.length = 1 then
            let row := lastB.headD ⟨0, 0, []⟩
            if row.eltyp ≠ t then .error .structural
            else
              let ninc := row.ninc ++ r.rdat
              Except.bind (_record_dtype 1900 ((ninc.length : Int) + 2)) (fun dt =>
                let w := (dt.fields.getD 2 ⟨"", 0⟩).size / AWL
                if ninc.length = w then
                  contGo t (elmSetLast st t [⟨row.elnum, row.eltyp, ninc⟩]) rest
                else .error .valueError)
          else .error .structural

/-- the `while rtyp == 1900` element loop of `AbqFil.__init__`: slice each
run of identically-shaped 1900 records as one mesh block, split it by type
tag, then process any 1990 continuation records.  `fuel` only bounds the
recursion; every iteration consumes at least one record, so
`fuel = recs.length` always suffices. -/
def elmGo : Nat → ElmState → List Rec → Except DecErr (ElmState × List Rec)
  | _, _, [] => .error .truncated
  | 0, _, _ :: _ => .error .truncated
  | fuel + 1, st, r :: rest =>
    if r.rtyp ≠ 1900 then .ok (st, r :: rest)
    else
      let grp := (r :: rest).takeWhile r.sameKind
      let rest' := (r :: rest).dropWhile r.sameKind
      if rest'.isEmpty then .error .truncated
      else
        Except.bind (_record_dtype r.rtyp (r.rlen : Int)) (fun _ =>
          let mesh := grp.map parseEl
          let tys := sortedUnique (mesh.map (·.eltyp))
          Except.bind (elmAccum mesh st tys) (fun st' =>
            Except.bind (contGo (tys.getLastD 0) st' rest') (fun p =>
              elmGo fuel p.1 p.2)))

/-- the post-merge fuse of `AbqFil.__init__` (lines 192–202): concatenate
each type's components in dict order, assert a uniform type tag and
strictly increasing element numbers per merged block.  (The
non-consecutive-numbering test only emits a log warning and is not part of
the returned data.) -/
def elmMerge : ElmState → Except DecErr (List (List ElRow))
  | [] => .ok []
  | (_, bs) :: rest =>
    match bs.flatten with
    | [] => .error .indexError
    | v0 :: _ =>
      let v := bs.flatten
      if (v.map (·.eltyp)).all (fun t => t == v0.eltyp) && _issorted_strict (v.map (·.elnum))
      then Except.bind (elmMerge rest) (fun tl => .ok (v :: tl))
      else .error .structural

/-- the element section: the first record must be a 1900 (asserted at line
163), then the loop plus the merge. -/
def elmSection (recs : List Rec) : Except DecErr (List (List ElRow) × List Rec) :=
  match recs with
  | [] => .error .truncated
  | r :: _ =>
    if r.rtyp ≠ 1900 then .error .structural
    else
      Except.bind (elmGo recs.length [] recs) (fun p =>
        Except.bind (elmMerge p.1) (fun blocks => .ok (blocks, p.2)))

/-- the 1901 node section: one run of identically-shaped records, decoded
as `(nnum, coords)` rows, node numbers asserted strictly increasing. -/
def nodeSection (recs : List Rec) : Except DecErr (List (Int × List Int) × List Rec) :=
  match recs with
  | [] => .error .truncated
  | r :: rest =>
    if r.rtyp ≠ 1901 then .error .structural
    else
      let grp := (r :: rest).takeWhile r.sameKind
      let rest' := (r :: rest).dropWhile r.sameKind
      if rest'.isEmpty then .error .truncated
      else
        Except.bind (_record_dtype r.rtyp (r.rlen : Int)) (fun _ =>
          let coord := grp.map (fun x => (x.rdat.getD 0 0, x.rdat.drop 1))
          if _issorted_strict (coord.map (·.1)) then .ok (coord, rest')
          else .error .structural)

/-- insertion-ordered dict write `d[k] = v`: replace in place or append. -/
def dictPut (st : List (Int × List Int)) (k : Int) (v : List Int) : List (Int × List Int) :=
  match st with
  | [] => [(k, v)]
  | (k', v') :: rest => if k' = k then (k', v) :: rest else (k', v') :: dictPut rest k v

/-- the inner continuation loop of a set section: extend the member list
while records of the continuation type follow.  Members are the low
unsigned 32-bit halves of the payload words (`.view("=2u4")[..., 0]`). -/
def setCont (cont : Int) (acc : List Int) : List Rec → Except DecErr (List Int × List Rec)
  | [] => .error .truncated
  | r :: rest =>
    if r.rtyp ≠ cont then .ok (acc, r :: rest)
    else setCont cont (acc ++ r.rdat.map lowU32) rest

/-- a set section (`1933/1934` element sets with the strict-sort assert,
`1931/1932` node sets without): label word, inline first chunk, zero or
more continuation chunks. -/
def setGo (hdr cont : Int) (strict : Bool) :
    Nat → List (Int × List Int) → List Rec → Except DecErr (List (Int × List Int) × List Rec)
  | _, _, [] => .error .truncated
  | 0, _, _ :: _ => .error .truncated
  | fuel + 1, st, r :: rest =>
    if r.rtyp ≠ hdr then .ok (st, r :: rest)
    else
      match r.rdat with
      | [] => .error .indexError
      | lab :: chunk =>
        Except.bind (setCont cont (chunk.map lowU32) rest) (fun p =>
          if strict && !(_issorted_strict p.1) then .error .structural
          else setGo hdr cont strict fuel (dictPut st lab p.1) p.2)

/-- the 1933/1934 element-set section. -/
def elsetSection (recs : List Rec) : Except DecErr (List (Int × List Int) × List Rec) :=
  setGo 1933 1934 true recs.length [] recs

/-- the 1931/1932 node-set section (no ordering assert). -/
def nsetSection (recs : List Rec) : Except DecErr (List (Int × List Int) × List Rec) :=
  setGo 1931 1932 false recs.length [] recs

/-- the 1940 label cross-reference section: key is the low unsigned 32-bit
half of the first word (`"u4"`), the label text is the remaining words. -/
def labelGo (st : List (Int × List Int)) : List Rec → Except DecErr (List (Int × List Int) × List Rec)
  | [] => .error .truncated
  | r :: rest =>
    if r.rtyp ≠ 1940 then .ok (st, r :: rest)
    else
      Except.bind (_record_dtype 1940 (r.rlen : Int)) (fun _ =>
        labelGo (dictPut st (lowU32 (r.rdat.getD 0 0)) (r.rdat.drop 1)) rest)

/-- the 1902 active-DOF parse: low unsigned 32-bit half of every payload
word (`rdat.view("=2u4")[..., 0]`). -/
def parseDof (rdat : List Int) : List Int := rdat.map lowU32

/-- One facet row of a 1502 record: underlying element number (`i4`, so the
low signed half of word 0), face key (word 1), facet node numbers (words 3
onward; word 2, the redundant node count, is skipped by the source's
dtype offsets). -/
structure Facet where
  elnum : Int
  f_id : Int
  nodes : List Int
deriving Repr, DecidableEq

/-- surface flavour: deformable (with master-surface references) or rigid
(with a reference node). -/
inductive SurfKind where
  | deformable (msurf : List Int)
  | rigid (reference_node : Int)
deriving Repr, DecidableEq

/-- One surface as assembled by `AbqFil.__init__`.  `nfacet` is the
header-declared facet count: the source keeps it in the local variable
`nfacet` (checked against the blocks, not stored); it is recorded here so
the facet-count invariant can be stated over the result. -/
structure Surf where
  sdim : Int
  nfacet : Int
  kind : SurfKind
  facet_block : List (List Facet)
deriving Repr, DecidableEq

/-- the surface invariant `AbqFil.__init__` asserts before storing a
surface (lines 325–329): every facet block's element numbers
non-decreasing, and the summed facet-block row count equal to the
header-declared facet count. -/
def surfOK (s : Surf) : Bool :=
  s.facet_block.all (fun b => _issorted (b.map (·.elnum))) &&
    ((s.facet_block.map List.length).sum : Int) == s.nfacet

/-- the `while rtyp == 1502` facet loop: slice each run of
identically-shaped 1502 records as one facet block (`s_rlen - 3 - 2 > 0`
asserted, i.e. at least one node word per row). -/
def facetGo : Nat → List (List Facet) → List Rec → Except DecErr (List (List Facet) × List Rec)
  | _, _, [] => .error .truncated
  | 0, _, _ :: _ => .error .truncated
  | fuel + 1, acc, r :: rest =>
    if r.rtyp ≠ 1502 then .ok (acc, r :: rest)
    else
      let grp := (r :: rest).takeWhile r.sameKind
      let rest' := (r :: rest).dropWhile r.sameKind
      if rest'.isEmpty then .error .truncated
      else
        if r.rdat.length ≤ 3 then .error .structural
        else
          let blk := grp.map (fun x => Facet.mk (lowI32 (x.rdat.getD 0 0)) (x.rdat.getD 1 0) (x.rdat.drop 3))
          facetGo fuel (acc ++ [blk]) rest'

/-- surface-dict write (insertion ordered). -/
def surfPut (st : List (Int × Surf)) (k : Int) (v : Surf) : List (Int × Surf) :=
  match st with
  | [] => [(k, v)]
  | (k', v') :: rest => if k' = k then (k', v) :: rest else (k', v') :: surfPut rest k v

/-- the `while rtyp == 1501` surface loop of `AbqFil.__init__` (lines
270–329): decode the header (name `S8`, then `i4` fields `sdim`, `stype`,
`nfacet`, `nmaster`, then `S8` master names), assert `1 ≤ sdim ≤ 4` and
`1 ≤ stype ≤ 2`, branch on deformable/rigid with the record-length asserts,
collect the facet blocks, then assert each block's element numbers
non-decreasing and the total row count equal to the declared `nfacet`. -/
def surfGo : Nat → List (Int × Surf) → List (Int × Surf) → List Rec →
    Except DecErr (List (Int × Surf) × List (Int × Surf) × List Rec)
  | _, _, _, [] => .error .truncated
  | 0, _, _, _ :: _ => .error .truncated
  | fuel + 1, ds, rs, r :: rest =>
    if r.rtyp ≠ 1501 then .ok (ds, rs, r :: rest)
    else
      Except.bind (_record_dtype 1501 (r.rlen : Int)) (fun _ =>
        let name := r.rdat.getD 0 0
        let sdim := lowI32 (r.rdat.getD 1 0)
        let stype := lowI32 (r.rdat.getD 2 0)
        let nfacet := lowI32 (r.rdat.getD 3 0)
        let nmaster := lowI32 (r.rdat.getD 4 0)
        let masters := r.rdat.drop 5
        if ¬ (1 ≤ sdim ∧ sdim ≤ 4) then .error .structural
        else if ¬ (1 ≤ stype ∧ stype ≤ 2) then .error .structural
        else
          let kindE : Except DecErr SurfKind :=
            if stype = 1 then
              if (r.rlen : Int) = 2 + 5 + nmaster then
                if (masters.length : Int) = nmaster then .ok (.deformable masters)
                else .error .structural
              else .error .structural
            else
              if (r.rlen : Int) = 2 + 5 then
                if masters = [] then .ok (.rigid nmaster) else .error .structural
              else .error .structural
          Except.bind kindE (fun kind =>
            match rest with
            | [] => .error .truncated
            | f :: frest =>
              if f.rtyp ≠ 1502 then .error .structural
              else
                Except.bind (facetGo (f :: frest).length [] (f :: frest)) (fun fp =>
                  let blocks := fp.1
                  if ¬ blocks.all (fun b => _issorted (b.map (·.elnum))) then .error .structural
                  else if ¬ ((blocks.map List.length).sum : Int) = nfacet then .error .structural
                  else
                    let surf : Surf := ⟨sdim, nfacet, kind, blocks⟩
                    if stype = 1 then surfGo fuel (surfPut ds name surf) rs fp.2
                    else surfGo fuel ds (surfPut rs name surf) fp.2)))

/-- the surface section wrapper. -/
def surfSection (recs : List Rec) : Except DecErr (List (Int × Surf) × List (Int × Surf) × List Rec) :=
  surfGo recs.length [] [] recs

/-- Modelled from the spec: `ftnfil.incstart`'s boundary finding, at record
level — split the result section into per-increment record ranges, one
starting at each increment-start (2000) record. -/
def splitGo : Nat → List Rec → List (List Rec)
  | _, [] => []
  | 0, _ :: _ => []
  | fuel + 1, r :: rest =>
    (r :: rest.takeWhile (fun x => x.rtyp != 2000)) ::
      splitGo fuel (rest.dropWhile (fun x => x.rtyp != 2000))

/-- split the result section at the 2000 increment-start records. -/
def splitSteps (recs : List Rec) : List (List Rec) := splitGo recs.length recs

/-- The decoded model (`AbqFil` instance state after `__init__`).
`step_rec` holds each increment's record range (the source stores the word
offsets `step_rec[i] .. step_rec[i+1]` into the mapped file; the
record-level model stores the ranges themselves), `step` the per-increment
2000-record metadata payloads. -/
structure AbqFil where
  info : List Int
  elm : List (List ElRow)
  coord : List (Int × List Int)
  elset : List (Int × List Int)
  nset : List (Int × List Int)
  label : List (Int × List Int)
  dof : List Int
  heading : List Int
  dsurf : List (Int × Surf)
  rsurf : List (Int × Surf)
  step : List (List Int)
  step_rec : List (List Rec)
deriving Repr, DecidableEq

/-- `AbqFil.__init__`: the single builder pass, section by section, over
the record stream.  The `pos % AWR == 0` physical-alignment asserts after
the optional 2001 padding records are internal to the missing `ftnfil`
framing layer and are not modelled; the optional padding records
themselves are.  The per-increment metadata parse
(`np.frombuffer(step_data, ...)`, with `step_data` collected by the
spec-modelled `incstart`) requires each increment-start record to carry the
21-word 2000 payload. -/
def AbqFil.init (recs : List Rec) : Except DecErr AbqFil :=
  match recs with
  | [] => .error .truncated
  | r0 :: rest0 =>
    if r0.rtyp ≠ 1921 then .error .structural
    else
      Except.bind (_record_dtype 1921 (r0.rlen : Int)) (fun _ =>
        Except.bind (elmSection rest0) (fun pelm =>
          Except.bind (nodeSection pelm.2) (fun pnod =>
            Except.bind (elsetSection pnod.2) (fun pels =>
              Except.bind (nsetSection pels.2) (fun pnse =>
                Except.bind (labelGo [] pnse.2) (fun plab =>
                  match plab.2 with
                  | [] => .error .truncated
                  | d :: rest6 =>
                    if d.rtyp ≠ 1902 then .error .structural
                    else
                      match rest6 with
                      | [] => .error .truncated
                      | h :: rest7 =>
                        if h.rtyp ≠ 1922 then .error .structural
                        else
                          match rest7 with
                          | [] => .error .truncated
                          | p :: rest8 =>
                            let rest9 := if p.rtyp = 2001 then rest8 else p :: rest8
                            Except.bind (surfSection rest9) (fun psur =>
                              match psur.2.2 with
                              | [] => .error .truncated
                              | q :: rest11 =>
                                let rest12 := if q.rtyp = 2001 then rest11 else q :: rest11
                                match rest12 with
                                | [] => .error .truncated
                                | s :: _ =>
                                  if s.rtyp ≠ 2000 then .error .structural
                                  else
                                    Except.bind (_record_dtype 2000 (s.rlen : Int)) (fun _ =>
                                      let segs := splitSteps rest12
                                      if segs.all
                                        (fun seg => (seg.headD ⟨0, []⟩).rdat.length == 21)
                                      then .ok ⟨r0.rdat, pelm.1, pnod.1, pels.1, pnse.1,
                                        plab.1, parseDof d.rdat, h.rdat, psur.1, psur.2.1,
                                        segs.map (fun seg => (seg.headD ⟨0, []⟩).rdat), segs⟩
                                      else .error .valueError))))))))

/-- One decoded output row of a step data block.  The nine fixed fields
live at byte offsets 16..80 of the row (words 2..10, i.e. the payload of
the element-header record): element number, integration-point and
section-point numbers, location code, rebar name (`S8` word), and the four
integer context flags; `cols` holds the per-output-record variable fields
`R<key>` (key, payload words). -/
structure OutRow where
  num : Int
  ipnum : Int
  spnum : Int
  loc : Int
  rebarname : Int
  ndi : Int
  nshr : Int
  ndir : Int
  nsfc : Int
  cols : List (Int × List Int)
deriving Repr, DecidableEq

/-- `StepDataBlock` of `abqfil.py`: output kind flag, set and element-type
references (`S8` words), decoded row array. -/
structure StepDataBlock where
  flag : Int
  set : Int
  eltype : Int
  data : List OutRow
deriving Repr, DecidableEq

/-- the first-pass column scan of `get_step` (lines 411–418): walk the
records of the first row, recording `(record key, word offset from the row
start, payload length)` per column record, until the next element-header
(key 1) record — returned as the terminator together with the scanned
records and the row width (the terminator's offset). -/
def scanCols (off : Nat) : List Rec →
    Except DecErr (List (Int × Nat × Nat) × Nat × List Rec × Rec × List Rec)
  | [] => .error .truncated
  | r :: rest =>
    if r.rtyp = 1 then .ok ([], off, [], r, rest)
    else
      Except.bind (scanCols (off + r.rlen) rest) (fun q =>
        .ok ((r.rtyp, off, r.rdat.length) :: q.1, q.2.1, r :: q.2.2.1, q.2.2.2.1, q.2.2.2.2))

/-- `stream.send((1911, 2001))` (spec §4.3 `skip_to`): discard records
until one of type 1911 or 2001, returning the skipped records, the marker
and the remainder. -/
def skipToMarker : List Rec → Except DecErr (List Rec × Rec × List Rec)
  | [] => .error .truncated
  | r :: rest =>
    if r.rtyp = 1911 ∨ r.rtyp = 2001 then .ok ([], r, rest)
    else
      Except.bind (skipToMarker rest) (fun q => .ok (r :: q.1, q.2.1, q.2.2))

/-- split a word list into consecutive chunks of `w` words (the numpy
`.view` of the row span as the dynamically-built row dtype). -/
def chunksGo : Nat → Nat → List Int → List (List Int)
  | 0, _, _ => []
  | _, _, [] => []
  | fuel + 1, w, x :: xs => (x :: xs).take w :: chunksGo fuel w ((x :: xs).drop w)

/-- chunk a word list into rows of `w` words. -/
def chunks (w : Nat) (l : List Int) : List (List Int) := chunksGo l.length w l

/-- decode one row chunk with the dynamically-built dtype: fixed fields at
words 2..10 (`i4` fields read the low signed half, the rebar name its full
`S8` word), one variable field per scanned column record at word offset
`o + 2` with its payload length. -/
def parseOutRow (ts : List (Int × Nat × Nat)) (chunk : List Int) : OutRow :=
  { num := lowI32 (chunk.getD 2 0)
    ipnum := lowI32 (chunk.getD 3 0)
    spnum := lowI32 (chunk.getD 4 0)
    loc := lowI32 (chunk.getD 5 0)
    rebarname := chunk.getD 6 0
    ndi := lowI32 (chunk.getD 7 0)
    nshr := lowI32 (chunk.getD 8 0)
    ndir := lowI32 (chunk.getD 9 0)
    nsfc := lowI32 (chunk.getD 10 0)
    cols := ts.map (fun t => (t.1, (chunk.drop (t.2.1 + 2)).take t.2.2)) }

/-- the five-context-field uniformity check of `get_step` (lines 471–473):
`loc`, `ndi`, `nshr`, `ndir`, `nsfc` must each hold the same value in every
row. -/
def ctxUniform : List OutRow → Bool
  | [] => true
  | r0 :: rest =>
    (r0 :: rest).all (fun r => r.loc == r0.loc && r.ndi == r0.ndi && r.nshr == r0.nshr &&
      r.ndir == r0.ndir && r.nsfc == r0.nsfc)

/-- the second pass of `get_step` (lines 466–476): reinterpret the row span
as rows of width `w` (the numpy `.view` requires the span to divide
evenly), then assert the element-number column non-decreasing and the five
context fields uniform before yielding the block. -/
def mkBlock (flag oset oelm : Int) (ts : List (Int × Nat × Nat)) (w : Nat) (span : List Int) :
    Except DecErr StepDataBlock :=
  if span.length % w ≠ 0 then .error .valueError
  else
    let rows := (chunks w span).map (parseOutRow ts)
    match rows with
    | [] => .error .indexError
    | _ :: _ =>
      if _issorted (rows.map (·.num)) && ctxUniform rows then .ok ⟨flag, oset, oelm, rows⟩
      else .error .structural

/-- process one 1911 output request of `get_step`: decode its header (only
kind 0, element output, is implemented — anything else raises), detect an
empty request (next record already a 1911 or the 2001 end marker: no block
is yielded), otherwise run the two-pass row reconstruction.  Returns the
optional yielded block and the stream position the loop resumes at.
The source's `assert types[0][1] == 11` (the element-header record spans
11 words) and the implicit numpy requirements — distinct column field
names, even division of the span — are the remaining checks. -/
def processReq (hdr : Rec) (rest : List Rec) : Except DecErr (Option StepDataBlock × List Rec) :=
  Except.bind (_record_dtype 1911 (hdr.rlen : Int)) (fun _ =>
    let outtyp := lowI32 (hdr.rdat.getD 0 0)
    if outtyp ≠ 0 then .error (.unsupportedOutputKind outtyp)
    else
      match rest with
      | [] => .error .truncated
      | r2 :: rest2 =>
        if r2.rtyp = 1911 ∨ r2.rtyp = 2001 then .ok (none, r2 :: rest2)
        else if r2.rtyp ≠ 1 then .error .structural
        else
          Except.bind (scanCols r2.rlen rest2) (fun q =>
            let ts := q.1
            let w := q.2.1
            let cons := q.2.2.1
            let t1 := q.2.2.2.1
            let rem := q.2.2.2.2
            let firstOff := match ts with | [] => w | t :: _ => t.2.1
            if firstOff ≠ 11 then .error .structural
            else
              if (ts.map (·.1)).Nodup then
                Except.bind (skipToMarker rem) (fun sq =>
                  let span := r2.words ++ cons.flatMap Rec.words ++ t1.words ++
                    sq.1.flatMap Rec.words
                  Except.bind
                    (mkBlock outtyp (hdr.rdat.getD 1 0) (hdr.rdat.getD 2 0) ts w span)
                    (fun b => .ok (some b, sq.2.1 :: sq.2.2)))
              else .error .valueError))

/-- the `while True` request loop of `get_step`: stop at the 2001
end-of-increment marker, otherwise the current record must be a 1911
request header, processed by `processReq`.  `fuel = recs.length` always
suffices (every iteration consumes at least one record). -/
def stepGo : Nat → List Rec → Except DecErr (List StepDataBlock)
  | _, [] => .error .truncated
  | 0, _ :: _ => .error .truncated
  | fuel + 1, r :: rest =>
    if r.rtyp = 2001 then .ok []
    else if r.rtyp ≠ 1911 then .error .structural
    else
      Except.bind (processReq r rest) (fun pr =>
        Except.bind (stepGo fuel pr.2) (fun blocks =>
          match pr.1 with
          | none => .ok blocks
          | some b => .ok (b :: blocks)))

/-- decode one increment's record range: the first record must be the 2000
increment-start marker (consumed, not surfaced), then the request loop. -/
def decodeStep (recs : List Rec) : Except DecErr (List StepDataBlock) :=
  match recs with
  | [] => .error .truncated
  | r :: rest => if r.rtyp = 2000 then stepGo rest.length rest else .error .structural

/-- `AbqFil.get_step`: decode increment `istep` (an out-of-range index is
the Python `IndexError` on `step_rec`). -/
def AbqFil.get_step (m : AbqFil) (istep : Nat) : Except DecErr (List StepDataBlock) :=
  match m.step_rec.get? istep with
  | none => .error .indexError
  | some seg => decodeStep seg

/-- state-threading embedding of the bound method `AbqFil.get_step`: the
second component is the post-call `self`.  The source method assigns no
attribute of `self` (it only reads `self.fil`, `self.step_rec` and builds
local state), so the post-call model equals the argument by
construction — which is exactly what translating the body
statement-by-statement yields. -/
def AbqFil.get_stepS (m : AbqFil) (istep : Nat) : Except DecErr (List StepDataBlock) × AbqFil :=
  (m.get_step istep, m)

/-- Source description of one output row inside an increment: the 9-word
payload of its element-header (key 1) record, and its column records
(output-variable key, payload words). -/
structure OutRowSrc where
  hdr : List Int
  cols : List (Int × List Int)
deriving Repr, DecidableEq

/-- the records a source row occupies in the stream. -/
def rowRecs (row : OutRowSrc) : List Rec :=
  ⟨1, row.hdr⟩ :: row.cols.map (fun c => ⟨c.1, c.2⟩)

/-- the raw words a source row occupies. -/
def rowWords (row : OutRowSrc) : List Int := (rowRecs row).flatMap Rec.words

/-- Source description of one element-output request: set and element-type
reference words and the row list (empty for an empty request). -/
structure OutReqSrc where
  set : Int
  elm : Int
  rows : List OutRowSrc
deriving Repr, DecidableEq

/-- the records a source request occupies: its 1911 header (output kind 0,
element output) followed by its rows' records. -/
def reqRecs (q : OutReqSrc) : List Rec :=
  ⟨1911, [0, q.set, q.elm]⟩ :: q.rows.flatMap rowRecs

/-- a full increment record range: the 2000 increment-start marker, the
requests, the 2001 end marker. -/
def incRecs (reqs : List OutReqSrc) : List Rec :=
  ⟨2000, []⟩ :: (reqs.flatMap reqRecs ++ [⟨2001, []⟩])

/-- a row's column signature: (record key, payload length) per column. -/
def colSig (row : OutRowSrc) : List (Int × Nat) := row.cols.map (fun c => (c.1, c.2.length))

/-- well-formedness of one source row: a 9-word header (so the
element-header record spans the asserted 11 words) and column keys
distinct from the structural keys 1, 1911 and 2001. -/
def rowWFb (row : OutRowSrc) : Bool :=
  row.hdr.length == 9 &&
    row.cols.all (fun c => c.1 != 1 && c.1 != 1911 && c.1 != 2001)

/-- the row a well-formed source row decodes to. -/
def expRow (row : OutRowSrc) : OutRow :=
  { num := lowI32 (row.hdr.getD 0 0)
    ipnum := lowI32 (row.hdr.getD 1 0)
    spnum := lowI32 (row.hdr.getD 2 0)
    loc := lowI32 (row.hdr.getD 3 0)
    rebarname := row.hdr.getD 4 0
    ndi := lowI32 (row.hdr.getD 5 0)
    nshr := lowI32 (row.hdr.getD 6 0)
    ndir := lowI32 (row.hdr.getD 7 0)
    nsfc := lowI32 (row.hdr.getD 8 0)
    cols := row.cols }

/-- the block a well-formed non-empty source request decodes to. -/
def expBlock (q : OutReqSrc) : StepDataBlock :=
  ⟨0, q.set, q.elm, q.rows.map expRow⟩

/-- Shape of one non-empty source request — what the two-pass
reconstruction of `get_step` is designed for: at least two rows (so the
column scan of the first row terminates at the second row's element
header), every row well-formed, one common column signature, and pairwise
distinct column keys (distinct numpy field names). -/
def reqShapeb (q : OutReqSrc) : Bool :=
  decide (2 ≤ q.rows.length) &&
    q.rows.all rowWFb &&
    (match q.rows with
     | [] => true
     | r0 :: _ =>
       q.rows.all (fun r => colSig r == colSig r0) &&
         decide (((colSig r0).map Prod.fst).Nodup))

/-- the block post-conditions `get_step` asserts before yielding, applied
to the rows a source request decodes to: element-number column
non-decreasing, five context fields uniform. -/
def reqChecksb (q : OutReqSrc) : Bool :=
  _issorted ((q.rows.map expRow).map (·.num)) && ctxUniform (q.rows.map expRow)

/-- full well-formedness of a source request: either empty, or shaped with
passing post-conditions. -/
def reqWFb (q : OutReqSrc) : Bool :=
  q.rows.isEmpty || (reqShapeb q && reqChecksb q)

/-- the column types the first-pass scan collects for a column list
starting at word offset `off`: (key, offset, payload length) per record. -/
def typesOf (cols : List (Int × List Int)) (off : Nat) : List (Int × Nat × Nat) :=
  match cols with
  | [] => []
  | c :: cs => (c.1, off, c.2.length) :: typesOf cs (off + (c.2.length + 2))

/-- total word width of a column record list. -/
def widthOf (cols : List (Int × List Int)) : Nat :=
  (cols.map (fun c => c.2.length + 2)).sum

/-- the column records of a source row. -/
def colRecs (row : OutRowSrc) : List Rec := row.cols.map (fun c => ⟨c.1, c.2⟩)

/-- a minimal valid record stream for `AbqFil.init`: info record, one
element block of two elements with non-consecutive numbers (1, 5), one
node, no sets or labels, DOF and heading records, one rigid surface with a
single one-row facet block, one increment-start record. -/
def exStream : List Rec :=
  [⟨1921, [0, 0, 0, 0, 0, 0, 0]⟩,
   ⟨1900, [1, 7, 1, 2]⟩,
   ⟨1900, [5, 7, 1, 2]⟩,
   ⟨1901, [1, 0]⟩,
   ⟨1902, [3]⟩,
   ⟨1922, [42]⟩,
   ⟨1501, [11, 2, 2, 1, 99]⟩,
   ⟨1502, [1, 1, 2, 5]⟩,
   ⟨2000, List.replicate 21 0⟩]

/-- an `AbqFil` with every field empty (placeholder for result
extraction). -/
def abqFilDefault : AbqFil := ⟨[], [], [], [], [], [], [], [], [], [], [], []⟩

/-- the model `AbqFil.init exStream` constructs. -/
def exModel : AbqFil := (AbqFil.init exStream).toOption.getD abqFilDefault

/-- a concrete well-formed output row (element 1). -/
def exRow1 : OutRowSrc := ⟨[1, 1, 0, 0, 0, 1, 0, 0, 0], [(11, [100])]⟩

/-- a concrete well-formed output row (element 2). -/
def exRow2 : OutRowSrc := ⟨[2, 1, 0, 0, 0, 1, 0, 0, 0], [(11, [200])]⟩

/-- a concrete empty output request. -/
def exReqEmpty : OutReqSrc := ⟨77, 88, []⟩

/-- a concrete two-row output request. -/
def exReq : OutReqSrc := ⟨5, 7, [exRow1, exRow2]⟩

/-- a concrete increment: one empty request followed by one two-row
request. -/
def exInc : List Rec := incRecs [exReqEmpty, exReq]

/-- a concrete request of the right shape whose element-number column is
decreasing — the post-condition asserts of `get_step` must reject it. -/
def exReqBad : OutReqSrc := ⟨5, 7, [exRow2, exRow1]⟩

/-- `MAX_ABAQUS_UNSIGNED` of `suanpan/__init__.py`: node and element
numbers are capped at 999,999,999. -/
def MAX_ABAQUS_UNSIGNED : Int := 999999999

/-- `MAX_NODE_NUMBER` of `suanpan/__init__.py`. -/
def MAX_NODE_NUMBER : Int := MAX_ABAQUS_UNSIGNED

/-- `MAX_ELEMENT_NUMBER` of `suanpan/__init__.py`. -/
def MAX_ELEMENT_NUMBER : Int := MAX_ABAQUS_UNSIGNED

/-- the layout `_record_dtype` returns for the 1921 general-info record. -/
def layout1921 : Layout := (_record_dtype 1921 9).toOption.getD ⟨[], [], 0⟩

/-- the blocks `decodeStep` yields on the concrete increment `exInc`. -/
def exBlocks : List StepDataBlock := (decodeStep exInc).toOption.getD []

/-- Spec-side offset formula (§4.2): the offset of field `i` is the sum of
the preceding fields' sizes, each rounded up to the alignment unit. -/
def specOffsets (sizes : List Nat) : List Nat :=
  (List.range sizes.length).map (fun i => ((sizes.take i).map _pad).sum)

theorem accum_getLastD (l : List Nat) : ∀ c, (accum c l).getLastD c = c + l.sum := by
  induction l with
  | nil => intro c; simp [accum]
  | cons x xs ih =>
    intro c
    simp only [accum, List.getLastD_cons, List.sum_cons]
    rw [ih (c + x)]
    omega


theorem accum_ne_nil (c x : Nat) (xs : List Nat) : accum c (x :: xs) ≠ [] := by
  simp [accum]

theorem accum_dropLast (x : Nat) (xs : List Nat) : ∀ c,
    c :: (accum c (x :: xs)).dropLast =
      (List.range (x :: xs).length).map (fun i => c + ((x :: xs).take i).sum) := by
  induction xs generalizing x with
  | nil => intro c; simp [accum, List.range_succ]
  | cons y ys ih =>
    intro c
    have h1 : accum c (x :: y :: ys) = (c + x) :: accum (c + x) (y :: ys) := rfl
    rw [h1, List.dropLast_cons_of_ne_nil (accum_ne_nil (c + x) y ys), ih y (c + x)]
    rw [show (x :: y :: ys).length = (y :: ys).length + 1 from rfl, List.range_succ_eq_map]
    simp only [List.map_cons, List.map_map, List.take_zero, List.sum_nil, Nat.add_zero]
    congr 1
    apply List.map_congr_left
    intro i _
    simp only [Function.comp_apply, List.take_succ_cons, List.sum_cons]
    omega

theorem abq_dtype_ok (items : List NField) (L : Layout) (h : _abq_dtype items = .ok L) :
    L.fields = items ∧
    L.offsets = specOffsets (items.map (·.size)) ∧
    L.itemsize = (items.map (fun f => _pad f.size)).sum := by
  match items with
  | [] => simp [_abq_dtype] at h
  | i :: is =>
    simp only [_abq_dtype] at h
    injection h with h
    subst h
    refine ⟨rfl, ?_, ?_⟩
    · show 0 :: (accum 0 (_pad i.size :: is.map (fun f => _pad f.size))).dropLast = _
      rw [accum_dropLast (_pad i.size) (is.map (fun f => _pad f.size)) 0]
      unfold specOffsets
      simp only [List.length_map, List.length_cons, Nat.zero_add]
      apply List.map_congr_left
      intro j _
      rw [← List.map_take, List.map_map]
      simp [List.map_take, Function.comp_def]
    · show (accum 0 (_pad i.size :: is.map (fun f => _pad f.size))).getLastD 0 = _
      have hg := accum_getLastD (_pad i.size :: is.map (fun f => _pad f.size)) 0
      simp only [List.map_cons, List.sum_cons] at hg ⊢
      omega

theorem pad_mul8 (k : Nat) : _pad (8 * k) = 8 * k := by
  simp [_pad, AWL, Nat.mul_mod_right]

theorem sum_map_cn {α : Type} (l : List α) (c : Nat) : (l.map (fun _ => c)).sum = l.length * c := by
  induction l with
  | nil => simp
  | cons x xs ih => simp [ih, Nat.succ_mul]; omega

set_option maxHeartbeats 2000000 in
theorem record_items_sum (rtyp rlen : Int) (items : List NField)
    (h : _record_items rtyp rlen = .ok items) :
    items ≠ [] ∧ (((items.map (fun f => _pad f.size)).sum : Nat) : Int) = (rlen - 2) * 8 := by
  simp only [_record_items] at h
  split_ifs at h with h1 h2 h3 h4 h5 h6 h7
  · injection h with h; subst h
    constructor
    · simp
    · simp only [List.map_append, List.sum_append, List.map_map, List.map_cons, List.map_nil,
        List.sum_cons, List.sum_nil]
      have hc : ((List.range (rlen - 2 - 5).toNat).map
          ((fun f => _pad f.size) ∘ fun i => NField.mk ("msurf" ++ toString (i + 1)) 8)).sum
          = (rlen - 2 - 5).toNat * 8 := by
        rw [show ((fun f => _pad f.size) ∘ fun i => NField.mk ("msurf" ++ toString (i + 1)) 8)
            = (fun _ => (8 : Nat)) from by funext i; simp [Function.comp_apply, _pad, AWL],
          sum_map_cn, List.length_range]
      rw [hc]
      have ht : ((rlen - 2 - 5).toNat : Int) = rlen - 2 - 5 := Int.toNat_of_nonneg (by omega)
      push_cast [ht]
      norm_num [_pad, AWL]
      omega
  · injection h with h; subst h
    refine ⟨by simp, ?_⟩
    simp only [List.map_cons, List.map_nil, List.sum_cons, List.sum_nil, pad_mul8]
    have ht : ((rlen - 2 - 2).toNat : Int) = rlen - 2 - 2 := Int.toNat_of_nonneg (by omega)
    push_cast [ht]
    norm_num [_pad, AWL]
    all_goals omega
  · injection h with h; subst h
    refine ⟨by simp, ?_⟩
    simp only [List.map_cons, List.map_nil, List.sum_cons, List.sum_nil, pad_mul8]
    have ht : ((rlen - 2 - 1).toNat : Int) = rlen - 2 - 1 := Int.toNat_of_nonneg (by omega)
    push_cast [ht]
    norm_num [_pad, AWL]
    all_goals omega
  · injection h with h; subst h
    refine ⟨by simp, ?_⟩
    norm_num [_pad, AWL]
    all_goals omega
  · injection h with h; subst h
    refine ⟨by simp, ?_⟩
    norm_num [_pad, AWL]
    all_goals omega
  · injection h with h; subst h
    refine ⟨by simp, ?_⟩
    simp only [List.map_cons, List.map_nil, List.sum_cons, List.sum_nil]
    have h8 : _pad ((rlen - 2 - 1).toNat * AWL) = 8 * (rlen - 2 - 1).toNat := by
      rw [show (rlen - 2 - 1).toNat * AWL = 8 * (rlen - 2 - 1).toNat from by
        simp [AWL, Nat.mul_comm]]
      exact pad_mul8 _
    rw [h8]
    have ht : ((rlen - 2 - 1).toNat : Int) = rlen - 2 - 1 := Int.toNat_of_nonneg (by omega)
    push_cast [ht]
    norm_num [_pad, AWL]
    all_goals omega
  · injection h with h; subst h
    refine ⟨by simp, ?_⟩
    norm_num [_pad, AWL]
    all_goals omega

set_option maxHeartbeats 2000000 in
theorem abq_dtype_exists (items : List NField) (h : items ≠ []) :
    ∃ L, _abq_dtype items = .ok L := by
  match items with
  | [] => exact absurd rfl h
  | i :: is => exact ⟨_, rfl⟩

theorem exbind_ok {α β : Type} (a : α) (f : α → Except DecErr β) :
    (Except.ok a).bind f = f a := rfl

theorem exbind_err {α β : Type} (e : DecErr) (f : α → Except DecErr β) :
    (Except.error e).bind f = (.error e : Except DecErr β) := rfl

theorem exbind_ok_inv {α β : Type} {x : Except DecErr α} {f : α → Except DecErr β} {b : β}
    (h : x.bind f = .ok b) : ∃ a, x = .ok a ∧ f a = .ok b := by
  cases x with
  | error e => exact Except.noConfusion h
  | ok a => exact ⟨a, rfl, h⟩

set_option maxHeartbeats 2000000 in
theorem record_dtype_ok_of_supported (rtyp rlen : Int) (h : supportedPair rtyp rlen) :
    ∃ L, _record_dtype rtyp rlen = .ok L ∧ L.fields ≠ [] := by
  have hitems : ∃ items, _record_items rtyp rlen = .ok items := by
    simp only [_record_items]
    split_ifs with h1 h2 h3 h4 h5 h6 h7
    any_goals exact ⟨_, rfl⟩
    exfalso
    simp only [supportedPair] at h
    rcases h with hg | hg | hg | hg | hg | hg | hg
    exacts [h1 hg, h2 hg, h3 hg, h4 hg, h5 hg, h6 hg, h7 hg]
  obtain ⟨items, hi⟩ := hitems
  obtain ⟨hne, hsum⟩ := record_items_sum rtyp rlen items hi
  obtain ⟨L, hL⟩ := abq_dtype_exists items hne
  obtain ⟨hf, _, hsz⟩ := abq_dtype_ok items L hL
  have hcond : (L.itemsize : Int) = (rlen - 2) * (AWL : Int) := by
    rw [hsz]
    simpa [AWL] using hsum
  refine ⟨L, ?_, by rw [hf]; exact hne⟩
  unfold _record_dtype
  rw [hi]
  simp only [exbind_ok]
  rw [hL]
  simp only [exbind_ok]
  rw [if_pos hcond]

set_option maxHeartbeats 2000000 in
theorem record_dtype_err_of_unsupported (rtyp rlen : Int) (h : ¬ supportedPair rtyp rlen) :
    _record_dtype rtyp rlen = .error (.unknownRecord rtyp rlen) := by
  have hitems : _record_items rtyp rlen = .error (.unknownRecord rtyp rlen) := by
    simp only [_record_items]
    split_ifs with h1 h2 h3 h4 h5 h6 h7
    · refine absurd ?_ h
      simp only [supportedPair]
      exact Or.inl h1
    · refine absurd ?_ h
      simp only [supportedPair]
      exact Or.inr (Or.inl h2)
    · refine absurd ?_ h
      simp only [supportedPair]
      exact Or.inr (Or.inr (Or.inl h3))
    · refine absurd ?_ h
      simp only [supportedPair]
      exact Or.inr (Or.inr (Or.inr (Or.inl h4)))
    · refine absurd ?_ h
      simp only [supportedPair]
      exact Or.inr (Or.inr (Or.inr (Or.inr (Or.inl h5))))
    · refine absurd ?_ h
      simp only [supportedPair]
      exact Or.inr (Or.inr (Or.inr (Or.inr (Or.inr (Or.inl h6)))))
    · refine absurd ?_ h
      simp only [supportedPair]
      exact Or.inr (Or.inr (Or.inr (Or.inr (Or.inr (Or.inr h7)))))
    · rfl
  unfold _record_dtype
  rw [hitems, exbind_err]

/-- C5: For every `(type_code, length)` pair, `_record_dtype` either
returns a non-empty layout (exactly for the supported pairs) or fails with
`UnknownRecordError` carrying exactly that pair — it never crashes, never
returns an empty or partial layout, and never raises any other error for
an unsupported pair. -/
theorem c5_record_dtype_total (rtyp rlen : Int) :
    (supportedPair rtyp rlen ↔ ∃ L, _record_dtype rtyp rlen = .ok L ∧ L.fields ≠ []) ∧
    (¬ supportedPair rtyp rlen ↔
      _record_dtype rtyp rlen = .error (.unknownRecord rtyp rlen)) := by
  constructor
  · constructor
    · exact record_dtype_ok_of_supported rtyp rlen
    · rintro ⟨L, hL, -⟩
      by_contra hn
      rw [record_dtype_err_of_unsupported rtyp rlen hn] at hL
      exact Except.noConfusion hL
  · constructor
    · exact record_dtype_err_of_unsupported rtyp rlen
    · intro he hs
      obtain ⟨L, hL, -⟩ := record_dtype_ok_of_supported rtyp rlen hs
      rw [he] at hL
      exact Except.noConfusion hL

/-- C8: For every supported `(type_code, length)` pair, the field offsets
of the returned layout are the partial sums of the preceding fields' sizes
each rounded up to the alignment unit (first field at offset 0), and the
accumulated total size exactly equals the declared payload size
`(length - 2) * AWL`. -/
theorem c8_layout_offsets (rtyp rlen : Int) (L : Layout)
    (h : _record_dtype rtyp rlen = .ok L) :
    L.offsets = specOffsets (L.fields.map (·.size)) ∧
    (L.itemsize : Int) = (rlen - 2) * (AWL : Int) := by
  unfold _record_dtype at h
  obtain ⟨items, hi, h⟩ := exbind_ok_inv h
  obtain ⟨dt, hA, h⟩ := exbind_ok_inv h
  split at h
  · injection h with h
    subst h
    obtain ⟨hf, ho, -⟩ := abq_dtype_ok items dt hA
    refine ⟨by rw [ho, hf], by assumption⟩
  · exact Except.noConfusion h

/-- witness for C8: the 1921 general-info layout satisfies the offset and
itemsize formulas. -/
theorem c8_witness :
    layout1921.offsets = specOffsets (layout1921.fields.map (·.size)) ∧
    (layout1921.itemsize : Int) = ((9 : Int) - 2) * (AWL : Int) :=
  c8_layout_offsets 1921 9 layout1921 rfl

/-- C9: decoding an increment is pure and re-entrant: the state-threaded
method returns the `AbqFil` model unchanged (no element block, node table,
set, label, surface or step-index field is mutated), and a second
independent call on the returned model yields exactly the same output
block sequence. -/
theorem c9_decode_step_pure (m : AbqFil) (istep : Nat) :
    (m.get_stepS istep).2 = m ∧
    ((m.get_stepS istep).2.get_stepS istep).1 = (m.get_stepS istep).1 :=
  ⟨rfl, rfl⟩

/-- C10: set members and DOF entries are stored as the low unsigned 32-bit
half of the on-disk 64-bit word; the stored value equals the word exactly
iff the word lies in `[0, 2^32)`, which holds for every legal Abaqus
number since they are capped at `MAX_ABAQUS_UNSIGNED = 999,999,999`. -/
theorem c10_low_half_storage :
    (∀ w : Int, lowU32 w = w ↔ (0 ≤ w ∧ w < 2 ^ 32)) ∧
    (∀ w : Int, 0 ≤ w → w ≤ MAX_ABAQUS_UNSIGNED → lowU32 w = w) ∧
    (∀ ws : List Int, parseDof ws = ws.map lowU32) ∧
    (∀ (lab : Int) (chunk : List Int) (x : Rec) (rest : List Rec),
      x.rtyp ≠ 1931 → x.rtyp ≠ 1932 →
      nsetSection (⟨1931, lab :: chunk⟩ :: x :: rest) =
        .ok ([(lab, chunk.map lowU32)], x :: rest)) ∧
    (∀ (lab : Int) (chunk : List Int) (x : Rec) (rest : List Rec),
      x.rtyp ≠ 1933 → x.rtyp ≠ 1934 → _issorted_strict (chunk.map lowU32) = true →
      elsetSection (⟨1933, lab :: chunk⟩ :: x :: rest) =
        .ok ([(lab, chunk.map lowU32)], x :: rest)) := by
  refine ⟨?_, ?_, fun ws => rfl, ?_, ?_⟩
  · intro w
    unfold lowU32
    omega
  · intro w h1 h2
    unfold lowU32
    unfold MAX_ABAQUS_UNSIGNED at h2
    omega
  · intro lab chunk x rest hx1 hx2
    unfold nsetSection
    simp only [List.length_cons]
    simp only [setGo]
    rw [if_neg (by simp : ¬ (Rec.mk 1931 (lab :: chunk)).rtyp ≠ 1931)]
    simp only [setCont]
    rw [if_pos hx2]
    simp only [exbind_ok]
    simp only [Bool.false_and, Bool.not_false]
    simp only [setGo]
    rw [if_pos hx1]
    simp [dictPut]
  · intro lab chunk x rest hx1 hx2 hs
    unfold elsetSection
    simp only [List.length_cons]
    simp only [setGo]
    rw [if_neg (by simp : ¬ (Rec.mk 1933 (lab :: chunk)).rtyp ≠ 1933)]
    simp only [setCont]
    rw [if_pos hx2]
    simp only [exbind_ok]
    rw [show (true && !(_issorted_strict (chunk.map lowU32))) = false from by
      rw [hs]; rfl]
    simp only [Bool.false_eq_true, if_false]
    simp only [setGo]
    rw [if_pos hx1]
    simp [dictPut]

/-- witness for C10: a node-set member and the cap round-trip through the
low-half storage. -/
theorem c10_witness :
    lowU32 999999999 = 999999999 ∧
    nsetSection [⟨1931, [1, 5]⟩, ⟨2000, []⟩] =
      .ok ([(1, List.map lowU32 [5])], [⟨2000, []⟩]) := by
  constructor
  · exact c10_low_half_storage.2.1 999999999 (by decide) (by decide)
  · exact c10_low_half_storage.2.2.2.1 1 [5] ⟨2000, []⟩ [] (by decide) (by decide)

/-- C2: set-member continuation records merge exactly as the non-split
equivalent (element sets and node sets), but the element-incidence
continuation (1990) path is broken in the source: rebuilding the merged
row uses `_record_dtype(1900, len(ninc) + 2)`, whose incidence field holds
`len(ninc) - 2` words, so the `np.array` construction always fails with a
numpy broadcast `ValueError` (the record length for a merged incidence of
`n` words would have to be `n + 4`).  The third conjunct evaluates the
builder at the failing input. -/
theorem c2_continuation_merge :
    (∀ (lab : Int) (c1 c2 : List Int) (x : Rec) (rest : List Rec),
      x.rtyp ≠ 1933 → x.rtyp ≠ 1934 →
      elsetSection (⟨1933, lab :: c1⟩ :: ⟨1934, c2⟩ :: x :: rest) =
        elsetSection (⟨1933, lab :: (c1 ++ c2)⟩ :: x :: rest)) ∧
    (∀ (lab : Int) (c1 c2 : List Int) (x : Rec) (rest : List Rec),
      x.rtyp ≠ 1931 → x.rtyp ≠ 1932 →
      nsetSection (⟨1931, lab :: c1⟩ :: ⟨1932, c2⟩ :: x :: rest) =
        nsetSection (⟨1931, lab :: (c1 ++ c2)⟩ :: x :: rest)) ∧
    elmSection [⟨1900, [1, 7, 1, 2, 3]⟩, ⟨1990, [4]⟩] = .error .valueError := by
  refine ⟨?_, ?_, by rfl⟩
  · intro lab c1 c2 x rest hx1 hx2
    unfold elsetSection
    simp only [List.length_cons]
    simp only [setGo]
    rw [if_neg (by simp : ¬ (Rec.mk 1933 (lab :: c1)).rtyp ≠ 1933),
      if_neg (by simp : ¬ (Rec.mk 1933 (lab :: (c1 ++ c2))).rtyp ≠ 1933)]
    simp only [setCont]
    rw [if_neg (by simp : ¬ (Rec.mk 1934 c2).rtyp ≠ 1934)]
    rw [if_pos hx2, if_pos hx2]
    simp only [exbind_ok, List.map_append]
    by_cases hs : _issorted_strict (c1.map lowU32 ++ c2.map lowU32)
    · rw [show (true && !(_issorted_strict (c1.map lowU32 ++ c2.map lowU32))) = false from by
        rw [hs]; rfl]
      simp only [Bool.false_eq_true, if_false]
      simp only [setGo]
      rw [if_pos hx1, if_pos hx1]
    · rw [show (true && !(_issorted_strict (c1.map lowU32 ++ c2.map lowU32))) = true from by
        rw [Bool.eq_false_iff.mpr hs]; rfl]
      rfl
  · intro lab c1 c2 x rest hx1 hx2
    unfold nsetSection
    simp only [List.length_cons]
    simp only [setGo]
    rw [if_neg (by simp : ¬ (Rec.mk 1931 (lab :: c1)).rtyp ≠ 1931),
      if_neg (by simp : ¬ (Rec.mk 1931 (lab :: (c1 ++ c2))).rtyp ≠ 1931)]
    simp only [setCont]
    rw [if_neg (by simp : ¬ (Rec.mk 1932 c2).rtyp ≠ 1932)]
    rw [if_pos hx2, if_pos hx2]
    simp only [exbind_ok, List.map_append]
    simp only [Bool.false_and, Bool.not_false]
    simp only [setGo]
    rw [if_pos hx1, if_pos hx1]

/-- witness for C2: the split/merged equivalence at a concrete element set
and node set. -/
theorem c2_witness :
    elsetSection [⟨1933, [1, 10]⟩, ⟨1934, [20]⟩, ⟨2000, []⟩] =
      elsetSection [⟨1933, [1, 10, 20]⟩, ⟨2000, []⟩] ∧
    nsetSection [⟨1931, [1, 10]⟩, ⟨1932, [20]⟩, ⟨2000, []⟩] =
      nsetSection [⟨1931, [1, 10, 20]⟩, ⟨2000, []⟩] := by
  constructor
  · exact c2_continuation_merge.1 1 [10] [20] ⟨2000, []⟩ [] (by decide) (by decide)
  · exact c2_continuation_merge.2.1 1 [10] [20] ⟨2000, []⟩ [] (by decide) (by decide)

theorem scanCols_cols (cols : List (Int × List Int)) :
    ∀ (off : Nat) (hd : Rec) (tail : List Rec),
    (∀ c ∈ cols, c.1 ≠ 1) → hd.rtyp = 1 →
    scanCols off (cols.map (fun c => Rec.mk c.1 c.2) ++ hd :: tail) =
      .ok (typesOf cols off, off + widthOf cols, cols.map (fun c => Rec.mk c.1 c.2), hd, tail) := by
  induction cols with
  | nil =>
    intro off hd tail _ hhd
    simp only [List.map_nil, List.nil_append, scanCols]
    rw [if_pos hhd]
    simp [typesOf, widthOf]
  | cons c cs ih =>
    intro off hd tail hne hhd
    simp only [List.map_cons, List.cons_append, List.append_eq, scanCols]
    rw [if_neg (hne c (by simp))]
    rw [ih (off + (Rec.mk c.1 c.2).rlen) hd tail (fun x hx => hne x (by simp [hx])) hhd]
    simp only [exbind_ok]
    simp only [typesOf, widthOf, List.map_cons, List.sum_cons, Rec.rlen]
    refine congrArg _ ?_
    simp only [Prod.mk.injEq]
    exact ⟨trivial, by omega, trivial⟩

theorem skipToMarker_skips (xs : List Rec) :
    ∀ (m : Rec) (tail : List Rec),
    (∀ r ∈ xs, r.rtyp ≠ 1911 ∧ r.rtyp ≠ 2001) →
    (m.rtyp = 1911 ∨ m.rtyp = 2001) →
    skipToMarker (xs ++ m :: tail) = .ok (xs, m, tail) := by
  induction xs with
  | nil =>
    intro m tail _ hm
    simp only [List.nil_append, skipToMarker]
    rw [if_pos hm]
  | cons x xs ih =>
    intro m tail hxs hm
    simp only [List.cons_append, List.append_eq, skipToMarker]
    rw [if_neg (by
      have := hxs x (by simp)
      push_neg
      exact this)]
    rw [ih m tail (fun r hr => hxs r (by simp [hr])) hm]
    simp only [exbind_ok]

theorem chunksGo_flatten (w : Nat) (hw : 0 < w) (ls : List (List Int)) :
    ∀ (fuel : Nat), (∀ x ∈ ls, x.length = w) → ls.flatten.length ≤ fuel →
    chunksGo fuel w ls.flatten = ls := by
  induction ls with
  | nil =>
    intro fuel _ _
    cases fuel <;> simp [chunksGo]
  | cons x xs ih =>
    intro fuel hlen hfuel
    have hx : x.length = w := hlen x (by simp)
    have hflat : (x :: xs).flatten = x ++ xs.flatten := by simp
    cases fuel with
    | zero =>
      exfalso
      rw [hflat] at hfuel
      simp only [List.length_append] at hfuel
      omega
    | succ f =>
      rw [hflat]
      cases x with
      | nil => exfalso; rw [← hx] at hw; simp at hw
      | cons a as =>
        rw [show (a :: as) ++ xs.flatten = a :: (as ++ xs.flatten) from rfl]
        simp only [chunksGo]
        rw [show (a :: (as ++ xs.flatten)) = (a :: as) ++ xs.flatten from rfl]
        rw [show ((a :: as) ++ xs.flatten).take w = a :: as from by
          rw [← hx]; exact List.take_left (a :: as) xs.flatten]
        rw [show ((a :: as) ++ xs.flatten).drop w = xs.flatten from by
          rw [← hx]; exact List.drop_left (a :: as) xs.flatten]
        rw [ih f (fun y hy => hlen y (by simp [hy])) (by
          rw [hflat] at hfuel
          simp only [List.length_append] at hfuel
          omega)]

theorem rowWords_eq (row : OutRowSrc) :
    rowWords row = ((row.hdr.length + 2 : Nat) : Int) :: 1 :: row.hdr ++
      (colRecs row).flatMap Rec.words := by
  simp [rowWords, rowRecs, colRecs, Rec.words, Rec.rlen]

theorem colRecs_words_length (row : OutRowSrc) :
    ((colRecs row).flatMap Rec.words).length = widthOf row.cols := by
  unfold colRecs widthOf
  induction row.cols with
  | nil => simp
  | cons c cs ih =>
    simp only [List.map_cons, List.flatMap_cons, List.length_append, List.sum_cons, ih,
      Rec.words, Rec.rlen, List.length_cons]

theorem rowWords_length (row : OutRowSrc) (h : row.hdr.length = 9) :
    (rowWords row).length = 11 + widthOf row.cols := by
  rw [rowWords_eq]
  have := colRecs_words_length row
  simp only [List.length_cons, List.length_append, h, this]

theorem rowWFb_prop (row : OutRowSrc) (h : rowWFb row = true) :
    row.hdr.length = 9 ∧ ∀ c ∈ row.cols, c.1 ≠ 1 ∧ c.1 ≠ 1911 ∧ c.1 ≠ 2001 := by
  unfold rowWFb at h
  simp only [Bool.and_eq_true, beq_iff_eq, List.all_eq_true, bne_iff_ne, ne_eq] at h
  obtain ⟨h9, hcAll⟩ := h
  refine ⟨h9, fun c hcm => ?_⟩
  obtain ⟨⟨ha, hb⟩, hcc⟩ := hcAll c hcm
  exact ⟨ha, hb, hcc⟩

theorem typesOf_keys (cols : List (Int × List Int)) : ∀ off,
    (typesOf cols off).map (·.1) = cols.map (·.1) := by
  induction cols with
  | nil => intro off; simp [typesOf]
  | cons c cs ih => intro off; simp [typesOf, ih]

theorem widthOf_sig {r r1 : OutRowSrc} (h : colSig r = colSig r1) :
    widthOf r.cols = widthOf r1.cols := by
  have key : ∀ s : OutRowSrc, widthOf s.cols = ((colSig s).map (fun p => p.2 + 2)).sum := by
    intro s
    unfold widthOf colSig
    rw [List.map_map]
    rfl
  rw [key r, key r1, h]

theorem rowRecs_not_marker (row : OutRowSrc) (h : rowWFb row = true) :
    ∀ r ∈ rowRecs row, r.rtyp ≠ 1911 ∧ r.rtyp ≠ 2001 := by
  obtain ⟨-, hc⟩ := rowWFb_prop row h
  intro r hr
  rcases List.mem_cons.mp hr with h1 | h2
  · subst h1
    constructor <;> simp
  · obtain ⟨c, hcm, hce⟩ := List.mem_map.mp h2
    obtain ⟨-, h1911, h2001⟩ := hc c hcm
    subst hce
    exact ⟨h1911, h2001⟩

theorem colExtract (cols1 : List (Int × List Int)) :
    ∀ (cols : List (Int × List Int)) (pre : List Int) (o : Nat),
    pre.length = o →
    cols1.map (fun c => (c.1, c.2.length)) = cols.map (fun c => (c.1, c.2.length)) →
    (typesOf cols1 o).map (fun t =>
        (t.1, ((pre ++ (cols.map (fun c => Rec.mk c.1 c.2)).flatMap Rec.words).drop
          (t.2.1 + 2)).take t.2.2)) = cols := by
  induction cols1 with
  | nil =>
    intro cols pre o hpre hsig
    have hc : cols = [] := by
      cases cols with
      | nil => rfl
      | cons c cs => simp at hsig
    subst hc
    simp [typesOf]
  | cons c1 cs1 ih =>
    intro cols pre o hpre hsig
    cases cols with
    | nil => simp at hsig
    | cons c cs =>
      simp only [List.map_cons, List.cons.injEq, Prod.mk.injEq] at hsig
      obtain ⟨⟨hk, hl⟩, htl⟩ := hsig
      have hW : (Rec.mk c.1 c.2 :: cs.map (fun c => Rec.mk c.1 c.2)).flatMap Rec.words =
          ((((c.2.length + 2 : Nat) : Int) :: c.1 :: c.2) ++
            ((cs.map (fun c => Rec.mk c.1 c.2)).flatMap Rec.words)) := by
        simp [Rec.words, Rec.rlen]
      simp only [typesOf, List.map_cons]
      congr 1
      · have hd : (pre ++ (Rec.mk c.1 c.2 ::
            cs.map (fun c => Rec.mk c.1 c.2)).flatMap Rec.words).drop (o + 2) =
            c.2 ++ ((cs.map (fun c => Rec.mk c.1 c.2)).flatMap Rec.words) := by
          rw [hW]
          rw [show pre ++ ((((c.2.length + 2 : Nat) : Int) :: c.1 :: c.2) ++
              ((cs.map (fun c => Rec.mk c.1 c.2)).flatMap Rec.words)) =
            (pre ++ [((c.2.length + 2 : Nat) : Int), c.1]) ++
              (c.2 ++ ((cs.map (fun c => Rec.mk c.1 c.2)).flatMap Rec.words)) from by simp]
          rw [show o + 2 = (pre ++ [((c.2.length + 2 : Nat) : Int), c.1]).length from by
            simp [hpre]]
          exact List.drop_left _ _
        rw [hd, hl, List.take_left c.2 ((cs.map (fun c => Rec.mk c.1 c.2)).flatMap Rec.words),
          hk]
      · have hEq : pre ++ (Rec.mk c.1 c.2 ::
            cs.map (fun c => Rec.mk c.1 c.2)).flatMap Rec.words =
            (pre ++ (((c.2.length + 2 : Nat) : Int) :: c.1 :: c.2)) ++
              ((cs.map (fun c => Rec.mk c.1 c.2)).flatMap Rec.words) := by
          rw [hW, List.append_assoc]
        rw [hEq]
        refine ih cs (pre ++ (((c.2.length + 2 : Nat) : Int) :: c.1 :: c.2))
          (o + (c1.2.length + 2)) ?_ htl
        have hll : (pre ++ (((c.2.length + 2 : Nat) : Int) :: c.1 :: c.2)).length =
            o + 2 + c.2.length := by
          simp only [List.length_append, List.length_cons, hpre]
          omega
        omega

theorem parseOutRow_shape (row1 row : OutRowSrc) (h9 : row.hdr.length = 9)
    (hsig : colSig row = colSig row1) :
    parseOutRow (typesOf row1.cols 11) (rowWords row) = expRow row := by
  have happ : ∀ (i : Nat) (d : Int), i < 9 →
      (row.hdr ++ (colRecs row).flatMap Rec.words).getD i d = row.hdr.getD i d := by
    intro i d hi
    exact List.getD_append _ _ _ _ (by omega)
  have hchunk : rowWords row =
      (((row.hdr.length + 2 : Nat) : Int) :: 1 :: row.hdr) ++
        ((row.cols.map (fun c => Rec.mk c.1 c.2)).flatMap Rec.words) := by
    rw [rowWords_eq]
    simp [colRecs]
  unfold parseOutRow expRow
  simp only [OutRow.mk.injEq]
  refine ⟨?_, ?_, ?_, ?_, ?_, ?_, ?_, ?_, ?_, ?_⟩
  · rw [rowWords_eq]
    show lowI32 ((row.hdr ++ (colRecs row).flatMap Rec.words).getD 0 0) = _
    rw [happ 0 0 (by omega)]
  · rw [rowWords_eq]
    show lowI32 ((row.hdr ++ (colRecs row).flatMap Rec.words).getD 1 0) = _
    rw [happ 1 0 (by omega)]
  · rw [rowWords_eq]
    show lowI32 ((row.hdr ++ (colRecs row).flatMap Rec.words).getD 2 0) = _
    rw [happ 2 0 (by omega)]
  · rw [rowWords_eq]
    show lowI32 ((row.hdr ++ (colRecs row).flatMap Rec.words).getD 3 0) = _
    rw [happ 3 0 (by omega)]
  · rw [rowWords_eq]
    show (row.hdr ++ (colRecs row).flatMap Rec.words).getD 4 0 = _
    rw [happ 4 0 (by omega)]
  · rw [rowWords_eq]
    show lowI32 ((row.hdr ++ (colRecs row).flatMap Rec.words).getD 5 0) = _
    rw [happ 5 0 (by omega)]
  · rw [rowWords_eq]
    show lowI32 ((row.hdr ++ (colRecs row).flatMap Rec.words).getD 6 0) = _
    rw [happ 6 0 (by omega)]
  · rw [rowWords_eq]
    show lowI32 ((row.hdr ++ (colRecs row).flatMap Rec.words).getD 7 0) = _
    rw [happ 7 0 (by omega)]
  · rw [rowWords_eq]
    show lowI32 ((row.hdr ++ (colRecs row).flatMap Rec.words).getD 8 0) = _
    rw [happ 8 0 (by omega)]
  · rw [hchunk]
    refine colExtract row1.cols row.cols
      (((row.hdr.length + 2 : Nat) : Int) :: 1 :: row.hdr) 11 (by simp [h9]) ?_
    have := hsig.symm
    unfold colSig at this
    exact this

theorem flatMap_rowRecs_words (l : List OutRowSrc) :
    (l.flatMap rowRecs).flatMap Rec.words = (l.map rowWords).flatten := by
  induction l with
  | nil => simp
  | cons x xs ih => simp [rowWords, ih]

theorem processReq_empty (s e : Int) (m : Rec) (tl : List Rec)
    (hm : m.rtyp = 1911 ∨ m.rtyp = 2001) :
    processReq ⟨1911, [0, s, e]⟩ (m :: tl) = .ok (none, m :: tl) := by
  unfold processReq
  obtain ⟨L5, hL5⟩ : ∃ L,
      _record_dtype 1911 (((Rec.mk 1911 [0, s, e]).rlen : Nat) : Int) = .ok L := ⟨_, rfl⟩
  rw [hL5]
  simp only [exbind_ok]
  rw [show lowI32 ((Rec.mk 1911 [0, s, e]).rdat.getD 0 0) = 0 from rfl]
  rw [if_neg (by simp : ¬ (0 : Int) ≠ 0)]
  rw [if_pos hm]

set_option maxHeartbeats 2000000 in
theorem processReq_shape (q : OutReqSrc) (m : Rec) (tl : List Rec)
    (hsh : reqShapeb q = true) (hm : m.rtyp = 1911 ∨ m.rtyp = 2001) :
    processReq ⟨1911, [0, q.set, q.elm]⟩ (q.rows.flatMap rowRecs ++ m :: tl) =
      (if reqChecksb q = true then .ok (some (expBlock q), m :: tl)
       else .error .structural) := by
  obtain ⟨qset, qelm, rows⟩ := q
  cases rows with
  | nil => simp [reqShapeb] at hsh
  | cons row1 rtl =>
  cases rtl with
  | nil => simp [reqShapeb] at hsh
  | cons row2 rrest =>
  unfold reqShapeb at hsh
  simp only [Bool.and_eq_true, decide_eq_true_eq, List.all_eq_true, beq_iff_eq] at hsh
  obtain ⟨⟨hlen2, hWall⟩, hsigAll, hnodup⟩ := hsh
  obtain ⟨h9_1, hcols1⟩ := rowWFb_prop row1 (hWall row1 (by simp))
  obtain ⟨h9_2, hcols2⟩ := rowWFb_prop row2 (hWall row2 (by simp))
  -- the record list, right-nested
  have hlist : (row1 :: row2 :: rrest).flatMap rowRecs ++ m :: tl =
      Rec.mk 1 row1.hdr :: (row1.cols.map (fun c => Rec.mk c.1 c.2) ++
        (Rec.mk 1 row2.hdr :: (row2.cols.map (fun c => Rec.mk c.1 c.2) ++
          (rrest.flatMap rowRecs ++ m :: tl)))) := by
    simp [rowRecs, List.flatMap_cons, List.append_assoc]
  rw [hlist]
  unfold processReq
  obtain ⟨L5, hL5⟩ : ∃ L,
      _record_dtype 1911 (((Rec.mk 1911 [0, qset, qelm]).rlen : Nat) : Int) = .ok L := ⟨_, rfl⟩
  rw [hL5]
  simp only [exbind_ok]
  rw [show lowI32 ((Rec.mk 1911 [0, qset, qelm]).rdat.getD 0 0) = 0 from rfl]
  rw [if_neg (by simp : ¬ (0 : Int) ≠ 0)]
  rw [if_neg (by simp : ¬ ((Rec.mk 1 row1.hdr).rtyp = 1911 ∨ (Rec.mk 1 row1.hdr).rtyp = 2001))]
  rw [if_neg (by simp : ¬ (Rec.mk 1 row1.hdr).rtyp ≠ 1)]
  rw [show ((Rec.mk 1 row1.hdr).rlen : Nat) = 11 from by simp [Rec.rlen, h9_1]]
  rw [scanCols_cols row1.cols 11 (Rec.mk 1 row2.hdr)
    (row2.cols.map (fun c => Rec.mk c.1 c.2) ++ (rrest.flatMap rowRecs ++ m :: tl))
    (fun c hc => (hcols1 c hc).1) rfl]
  simp only [exbind_ok]
  rw [if_neg (show ¬ ((match typesOf row1.cols 11 with
      | [] => 11 + widthOf row1.cols
      | t :: tail => t.2.1) ≠ 11) from by
    cases hc : row1.cols with
    | nil => simp [typesOf, widthOf]
    | cons c cs => simp [typesOf])]
  have hnd : (row1.cols.map (fun x => x.1)).Nodup := by
    have h2 := hnodup
    unfold colSig at h2
    rw [List.map_map] at h2
    exact h2
  rw [typesOf_keys row1.cols 11, if_pos hnd]
  rw [show List.map (fun c => Rec.mk c.1 c.2) row2.cols ++ (rrest.flatMap rowRecs ++ m :: tl) =
    (List.map (fun c => Rec.mk c.1 c.2) row2.cols ++ rrest.flatMap rowRecs) ++ m :: tl from by
      rw [List.append_assoc]]
  have hxs : ∀ r ∈ List.map (fun c => Rec.mk c.1 c.2) row2.cols ++ rrest.flatMap rowRecs,
      r.rtyp ≠ 1911 ∧ r.rtyp ≠ 2001 := by
    intro r hr
    rcases List.mem_append.mp hr with h1 | h2
    · obtain ⟨c, hcm, rfl⟩ := List.mem_map.mp h1
      obtain ⟨-, a, b⟩ := hcols2 c hcm
      exact ⟨a, b⟩
    · obtain ⟨rr, hrr, hmem⟩ := List.mem_flatMap.mp h2
      exact rowRecs_not_marker rr (hWall rr (by simp [hrr])) r hmem
  rw [skipToMarker_skips _ m tl hxs hm]
  simp only [exbind_ok]
  have hspan : (Rec.mk 1 row1.hdr).words ++
        (List.map (fun c => Rec.mk c.1 c.2) row1.cols).flatMap Rec.words ++
        (Rec.mk 1 row2.hdr).words ++
        (List.map (fun c => Rec.mk c.1 c.2) row2.cols ++ rrest.flatMap rowRecs).flatMap
          Rec.words =
      ((row1 :: row2 :: rrest).map rowWords).flatten := by
    rw [List.flatMap_append, flatMap_rowRecs_words]
    simp [rowWords, rowRecs, List.append_assoc]
  rw [hspan]
  have hw : ∀ r ∈ row1 :: row2 :: rrest, (rowWords r).length = 11 + widthOf row1.cols := by
    intro r hr
    rw [rowWords_length r (rowWFb_prop r (hWall r hr)).1, widthOf_sig (hsigAll r hr)]
  have hflatlen : (((row1 :: row2 :: rrest).map rowWords).flatten).length =
      (row1 :: row2 :: rrest).length * (11 + widthOf row1.cols) := by
    rw [List.length_flatten, List.map_map]
    have hmap1 : List.map (List.length ∘ rowWords) (row1 :: row2 :: rrest) =
        List.map (fun _ => 11 + widthOf row1.cols) (row1 :: row2 :: rrest) :=
      List.map_congr_left (fun r hr => hw r hr)
    rw [hmap1]
    exact sum_map_cn _ _
  unfold mkBlock
  rw [if_neg (show ¬ ((((row1 :: row2 :: rrest).map rowWords).flatten).length %
      (11 + widthOf row1.cols) ≠ 0) from by
    rw [hflatlen]
    simp [Nat.mul_mod_left]
    )]
  rw [show chunks (11 + widthOf row1.cols)
      ((List.map rowWords (row1 :: row2 :: rrest)).flatten) =
      List.map rowWords (row1 :: row2 :: rrest) from by
    unfold chunks
    exact chunksGo_flatten _ (by omega) _ _
      (fun x hx => by obtain ⟨r, hr, rfl⟩ := List.mem_map.mp hx; exact hw r hr)
      (Nat.le_refl _)]
  rw [List.map_map]
  have hmap2 : List.map (parseOutRow (typesOf row1.cols 11) ∘ rowWords)
      (row1 :: row2 :: rrest) = List.map expRow (row1 :: row2 :: rrest) :=
    List.map_congr_left (fun r hr =>
      parseOutRow_shape row1 r (rowWFb_prop r (hWall r hr)).1 (hsigAll r hr))
  rw [hmap2]
  simp only [List.map_cons]
  by_cases hchk : reqChecksb (OutReqSrc.mk qset qelm (row1 :: row2 :: rrest)) = true
  · have hcc := hchk
    simp only [reqChecksb, List.map_cons] at hcc
    rw [if_pos hchk, if_pos hcc]
    rfl
  · have hcc : ¬ ((_issorted ((expRow row1).num :: (expRow row2).num ::
        List.map (fun x => x.num) (List.map expRow rrest)) &&
        ctxUniform (expRow row1 :: expRow row2 :: List.map expRow rrest)) = true) := by
      intro hx
      refine hchk ?_
      simp only [reqChecksb, List.map_cons]
      exact hx
    rw [if_neg hchk, if_neg hcc]
    rfl





theorem incTail_head (qs : List OutReqSrc) :
    ∃ m tl, qs.flatMap reqRecs ++ [(⟨2001, []⟩ : Rec)] = m :: tl ∧
      (m.rtyp = 1911 ∨ m.rtyp = 2001) := by
  cases qs with
  | nil => exact ⟨⟨2001, []⟩, [], rfl, Or.inr rfl⟩
  | cons q qs2 =>
    refine ⟨⟨1911, [0, q.set, q.elm]⟩,
      q.rows.flatMap rowRecs ++ (qs2.flatMap reqRecs ++ [⟨2001, []⟩]), ?_, Or.inl rfl⟩
    simp [reqRecs, List.flatMap_cons, List.append_assoc]

theorem stepGo_shape (reqs : List OutReqSrc) (fuel : Nat)
    (hWF : ∀ q ∈ reqs, reqWFb q = true)
    (hfuel : (reqs.flatMap reqRecs ++ [(⟨2001, []⟩ : Rec)]).length ≤ fuel) :
    stepGo fuel (reqs.flatMap reqRecs ++ [(⟨2001, []⟩ : Rec)]) =
      .ok ((reqs.filter (fun p => !p.rows.isEmpty)).map expBlock) := by
  induction reqs generalizing fuel with
  | nil =>
    cases fuel with
    | zero => simp at hfuel
    | succ f => simp [stepGo]
  | cons q qs ih =>
    obtain ⟨m, tl, hmt, hm⟩ := incTail_head qs
    have hstream : (q :: qs).flatMap reqRecs ++ [(⟨2001, []⟩ : Rec)] =
        Rec.mk 1911 [0, q.set, q.elm] :: (q.rows.flatMap rowRecs ++ m :: tl) := by
      rw [← hmt]
      simp [reqRecs, List.flatMap_cons, List.append_assoc]
    cases fuel with
    | zero =>
      rw [hstream] at hfuel
      simp at hfuel
    | succ f =>
      have hlen : (qs.flatMap reqRecs ++ [(⟨2001, []⟩ : Rec)]).length ≤ f := by
        rw [hmt]
        rw [hstream] at hfuel
        simp only [List.length_cons, List.length_append] at hfuel ⊢
        omega
      have hstep : stepGo f (m :: tl) =
          .ok ((qs.filter (fun p => !p.rows.isEmpty)).map expBlock) := by
        rw [← hmt]
        exact ih f (fun p hp => hWF p (by simp [hp])) hlen
      rw [hstream]
      simp only [stepGo]
      rw [if_neg (by simp : ¬ (Rec.mk 1911 [0, q.set, q.elm]).rtyp = 2001)]
      rw [if_neg (by simp : ¬ (Rec.mk 1911 [0, q.set, q.elm]).rtyp ≠ 1911)]
      by_cases hne : q.rows.isEmpty
      · have hrows : q.rows = [] := by simpa using hne
        rw [hrows]
        rw [show ([] : List OutRowSrc).flatMap rowRecs ++ m :: tl = m :: tl from by simp]
        rw [processReq_empty q.set q.elm m tl hm]
        simp only [exbind_ok]
        rw [hstep]
        simp only [exbind_ok]
        rw [List.filter_cons]
        rw [if_neg (by simp [hrows] : ¬ ((!q.rows.isEmpty) = true))]
      · have hq : reqShapeb q = true ∧ reqChecksb q = true := by
          have h2 := hWF q (by simp)
          unfold reqWFb at h2
          rw [Bool.or_eq_true, Bool.and_eq_true] at h2
          rcases h2 with h2 | h2
          · exact absurd h2 hne
          · exact h2
        rw [processReq_shape q m tl hq.1 hm, if_pos hq.2]
        simp only [exbind_ok]
        rw [hstep]
        simp only [exbind_ok]
        rw [List.filter_cons]
        rw [if_pos (by simpa using hne : (!q.rows.isEmpty) = true)]
        rfl

/-- C1: for every increment built from a list of source output requests
whose requests are well formed, `decode_step` yields exactly one block per
NON-empty request — an empty request (header immediately followed by
another header or the end marker) yields NO block at all, because the
source's empty-request branch `continue`s without `yield`ing.  The claim's
"zero-row block for empty requests" is therefore corrected to "no block
for empty requests". -/
theorem c1_one_block_per_nonempty_request (reqs : List OutReqSrc)
    (hWF : ∀ q ∈ reqs, reqWFb q = true) :
    decodeStep (incRecs reqs) =
      .ok ((reqs.filter (fun p => !p.rows.isEmpty)).map expBlock) := by
  simp only [decodeStep, incRecs, if_true]
  exact stepGo_shape reqs _ hWF (Nat.le_refl _)

theorem c1_one_block_per_nonempty_request_witness :
    (∀ q ∈ [exReqEmpty, exReq], reqWFb q = true) ∧
    decodeStep (incRecs [exReqEmpty, exReq]) =
      .ok (([exReqEmpty, exReq].filter (fun p => !p.rows.isEmpty)).map expBlock) :=
  ⟨by decide, c1_one_block_per_nonempty_request [exReqEmpty, exReq] (by decide)⟩

/-- C1 counterexample: an increment holding exactly one output request,
an empty one, decodes to the empty block list — not to one block with a
zero-row array as the claim states. -/
theorem c1_counterexample :
    decodeStep [⟨2000, []⟩, ⟨1911, [0, 5, 7]⟩, ⟨2001, []⟩] =
      .ok ([] : List StepDataBlock) := by
  rfl

/-- C6: an output request whose declared kind word is non-zero (not
element output) makes `decode_step` fail with `UnsupportedOutputKindError`
carrying that kind, rather than skipping the request; requests of kind 0
(element output, as in any well-formed source increment) never produce
this error. -/
theorem c6_unsupported_output_kind (md : List Int) (t s e : Int) (rest : List Rec)
    (reqs : List OutReqSrc) (hWF : ∀ q ∈ reqs, reqWFb q = true) (ht : lowI32 t ≠ 0) :
    decodeStep (⟨2000, md⟩ :: ⟨1911, [t, s, e]⟩ :: rest) =
      .error (.unsupportedOutputKind (lowI32 t)) ∧
    ∀ k, decodeStep (incRecs reqs) ≠ .error (.unsupportedOutputKind k) := by
  constructor
  · simp only [decodeStep, if_true]
    rw [show (Rec.mk 1911 [t, s, e] :: rest).length = rest.length + 1 from rfl]
    simp only [stepGo]
    rw [if_neg (by simp : ¬ (Rec.mk 1911 [t, s, e]).rtyp = 2001)]
    rw [if_neg (by simp : ¬ (Rec.mk 1911 [t, s, e]).rtyp ≠ 1911)]
    unfold processReq
    obtain ⟨L, hL⟩ : ∃ L,
        _record_dtype 1911 (((Rec.mk 1911 [t, s, e]).rlen : Nat) : Int) = .ok L := ⟨_, rfl⟩
    rw [hL]
    simp only [exbind_ok]
    rw [show lowI32 ((Rec.mk 1911 [t, s, e]).rdat.getD 0 0) = lowI32 t from rfl]
    rw [if_pos ht]
    simp only [exbind_err]
  · intro k
    simp only [decodeStep, incRecs, if_true]
    rw [stepGo_shape reqs _ hWF (Nat.le_refl _)]
    simp

theorem c6_witness :
    lowI32 1 ≠ 0 ∧ (∀ q ∈ [exReq], reqWFb q = true) ∧
    (decodeStep [⟨2000, []⟩, ⟨1911, [1, 5, 7]⟩, ⟨2001, []⟩] =
        .error (.unsupportedOutputKind (lowI32 1)) ∧
      ∀ k, decodeStep (incRecs [exReq]) ≠ .error (.unsupportedOutputKind k)) :=
  ⟨by decide, by decide,
    c6_unsupported_output_kind [] 1 5 7 [⟨2001, []⟩] [exReq] (by decide) (by decide)⟩

theorem mkBlock_ok {flag oset oelm : Int} {ts : List (Int × Nat × Nat)} {w : Nat}
    {span : List Int} {b : StepDataBlock}
    (h : mkBlock flag oset oelm ts w span = .ok b) :
    b.data ≠ [] ∧ _issorted (b.data.map (·.num)) = true ∧ ctxUniform b.data = true := by
  simp only [mkBlock] at h
  by_cases h1 : span.length % w ≠ 0
  · rw [if_pos h1] at h
    exact absurd h (by simp)
  · rw [if_neg h1] at h
    cases hrows : (chunks w span).map (parseOutRow ts) with
    | nil =>
      rw [hrows] at h
      exact absurd h (by simp)
    | cons r0 rs =>
      rw [hrows] at h
      by_cases h2 : (_issorted ((r0 :: rs).map (·.num)) && ctxUniform (r0 :: rs)) = true
      · rw [if_pos h2] at h
        rw [Bool.and_eq_true] at h2
        injection h with h
        subst h
        exact ⟨by simp, h2.1, h2.2⟩
      · rw [if_neg h2] at h
        exact absurd h (by simp)

theorem processReq_ok_some {hdr : Rec} {rest : List Rec} {b : StepDataBlock}
    {rest2 : List Rec} (h : processReq hdr rest = .ok (some b, rest2)) :
    b.data ≠ [] ∧ _issorted (b.data.map (·.num)) = true ∧ ctxUniform b.data = true := by
  cases rest with
  | nil =>
    simp only [processReq] at h
    obtain ⟨L, hL, h⟩ := exbind_ok_inv h
    by_cases h1 : lowI32 (hdr.rdat.getD 0 0) ≠ 0
    · rw [if_pos h1] at h
      exact absurd h (by simp)
    · rw [if_neg h1] at h
      exact absurd h (by simp)
  | cons r2 rest3 =>
    simp only [processReq] at h
    obtain ⟨L, hL, h⟩ := exbind_ok_inv h
    by_cases h1 : lowI32 (hdr.rdat.getD 0 0) ≠ 0
    · rw [if_pos h1] at h
      exact absurd h (by simp)
    · rw [if_neg h1] at h
      by_cases h2 : r2.rtyp = 1911 ∨ r2.rtyp = 2001
      · rw [if_pos h2] at h
        simp at h
      · rw [if_neg h2] at h
        by_cases h3 : r2.rtyp ≠ 1
        · rw [if_pos h3] at h
          exact absurd h (by simp)
        · rw [if_neg h3] at h
          obtain ⟨q, hq, h⟩ := exbind_ok_inv h
          by_cases h4 : (match q.1 with | [] => q.2.1 | t :: _ => t.2.1) ≠ 11
          · rw [if_pos h4] at h
            exact absurd h (by simp)
          · rw [if_neg h4] at h
            by_cases h5 : (q.1.map (·.1)).Nodup
            · rw [if_pos h5] at h
              obtain ⟨sq, hsq, h⟩ := exbind_ok_inv h
              obtain ⟨bb, hbb, h⟩ := exbind_ok_inv h
              have hb : bb = b := by
                simp only [Except.ok.injEq, Prod.mk.injEq, Option.some.injEq] at h
                exact h.1
              exact hb ▸ mkBlock_ok hbb
            · rw [if_neg h5] at h
              exact absurd h (by simp)

theorem stepGo_ok : ∀ (fuel : Nat) (recs : List Rec) (blocks : List StepDataBlock),
    stepGo fuel recs = .ok blocks → ∀ b ∈ blocks,
      b.data ≠ [] ∧ _issorted (b.data.map (·.num)) = true ∧ ctxUniform b.data = true := by
  intro fuel
  induction fuel with
  | zero =>
    intro recs blocks h
    cases recs <;> simp [stepGo] at h
  | succ f ih =>
    intro recs blocks h
    cases recs with
    | nil => simp [stepGo] at h
    | cons r rest =>
      simp only [stepGo] at h
      by_cases h1 : r.rtyp = 2001
      · rw [if_pos h1] at h
        have hb : ([] : List StepDataBlock) = blocks := by simpa using h
        intro b hb2
        rw [← hb] at hb2
        simp at hb2
      · rw [if_neg h1] at h
        by_cases h2 : r.rtyp ≠ 1911
        · rw [if_pos h2] at h
          exact absurd h (by simp)
        · rw [if_neg h2] at h
          obtain ⟨⟨po, prest⟩, hpr, h⟩ := exbind_ok_inv h
          obtain ⟨bl, hbl, h⟩ := exbind_ok_inv h
          cases po with
          | none =>
            have hb : bl = blocks := by simpa using h
            rw [← hb]
            exact ih prest bl hbl
          | some b0 =>
            have hb : b0 :: bl = blocks := by simpa using h
            rw [← hb]
            intro b hmem
            rcases List.mem_cons.mp hmem with rfl | hmem2
            · exact processReq_ok_some hpr
            · exact ih prest bl hbl b hmem2

/-- C4: every block `decode_step` yields has a non-empty row array whose
element-number column is non-decreasing and whose five context fields
(`loc`, `ndi`, `nshr`, `ndir`, `nsfc`) are uniform across the rows; and an
increment whose (well-shaped) request violates the post-conditions makes
`decode_step` fail with `StructuralError` instead of yielding the block. -/
theorem c4_block_postconditions (recs : List Rec) (blocks : List StepDataBlock)
    (q : OutReqSrc) (hok : decodeStep recs = .ok blocks)
    (hsh : reqShapeb q = true) (hbad : reqChecksb q = false) :
    (∀ b ∈ blocks, b.data ≠ [] ∧ _issorted (b.data.map (·.num)) = true ∧
      ctxUniform b.data = true) ∧
    decodeStep (incRecs [q]) = .error .structural := by
  constructor
  · cases recs with
    | nil => simp [decodeStep] at hok
    | cons r rest =>
      simp only [decodeStep] at hok
      by_cases h1 : r.rtyp = 2000
      · rw [if_pos h1] at hok
        exact stepGo_ok rest.length rest blocks hok
      · rw [if_neg h1] at hok
        exact absurd hok (by simp)
  · have hstream : reqRecs q ++ [(⟨2001, []⟩ : Rec)] =
        Rec.mk 1911 [0, q.set, q.elm] ::
          (q.rows.flatMap rowRecs ++ (⟨2001, []⟩ : Rec) :: []) := by
      simp [reqRecs]
    simp only [decodeStep, incRecs, List.flatMap_cons, List.flatMap_nil,
      List.append_nil, if_true]
    rw [show reqRecs q ++ [(⟨2001, []⟩ : Rec)] = reqRecs q ++ [(⟨2001, []⟩ : Rec)] from rfl]
    rw [hstream, List.length_cons]
    simp only [stepGo]
    rw [if_neg (by simp : ¬ (Rec.mk 1911 [0, q.set, q.elm]).rtyp = 2001)]
    rw [if_neg (by simp : ¬ (Rec.mk 1911 [0, q.set, q.elm]).rtyp ≠ 1911)]
    rw [processReq_shape q ⟨2001, []⟩ [] hsh (Or.inr rfl)]
    rw [if_neg (by simp [hbad] : ¬ reqChecksb q = true)]
    simp only [exbind_err]

theorem c4_witness :
    decodeStep exInc = .ok [expBlock exReq] ∧ reqShapeb exReqBad = true ∧
      reqChecksb exReqBad = false ∧
    ((∀ b ∈ [expBlock exReq], b.data ≠ [] ∧ _issorted (b.data.map (·.num)) = true ∧
        ctxUniform b.data = true) ∧
      decodeStep (incRecs [exReqBad]) = .error .structural) :=
  ⟨by rfl, by decide, by decide,
    c4_block_postconditions exInc [expBlock exReq] exReqBad (by rfl) (by decide) (by decide)⟩

theorem elmMerge_ok : ∀ (st : ElmState) (blocks : List (List ElRow)),
    elmMerge st = .ok blocks → ∀ v ∈ blocks, v ≠ [] ∧
      (∀ e ∈ v, e.eltyp = (v.headD ⟨0, 0, []⟩).eltyp) ∧
      _issorted_strict (v.map (·.elnum)) = true := by
  intro st
  induction st with
  | nil =>
    intro blocks h v hv
    have hb : ([] : List (List ElRow)) = blocks := by simpa [elmMerge] using h
    rw [← hb] at hv
    simp at hv
  | cons kv rest ih =>
    intro blocks h v hv
    obtain ⟨k, bs⟩ := kv
    simp only [elmMerge] at h
    split at h
    · simp at h
    · rename_i v0 vs heq
      by_cases hc : ((bs.flatten.map (·.eltyp)).all (fun t => t == v0.eltyp) &&
          _issorted_strict (bs.flatten.map (·.elnum))) = true
      · rw [if_pos hc] at h
        rw [Bool.and_eq_true] at hc
        obtain ⟨tl, htl, h⟩ := exbind_ok_inv h
        have hbl : bs.flatten :: tl = blocks := by simpa using h
        rw [← hbl] at hv
        rcases List.mem_cons.mp hv with rfl | hmem
        · refine ⟨by rw [heq]; simp, ?_, hc.2⟩
          intro e he
          have he2 := List.all_eq_true.mp hc.1 _ (List.mem_map.mpr ⟨e, he, rfl⟩)
          rw [heq]
          simpa using he2
        · exact ih tl htl v hmem
      · rw [if_neg hc] at h
        simp at h

theorem elmSection_ok {recs : List Rec} {p : List (List ElRow) × List Rec}
    (h : elmSection recs = .ok p) :
    ∀ v ∈ p.1, v ≠ [] ∧ (∀ e ∈ v, e.eltyp = (v.headD ⟨0, 0, []⟩).eltyp) ∧
      _issorted_strict (v.map (·.elnum)) = true := by
  cases recs with
  | nil => simp [elmSection] at h
  | cons r rest =>
    simp only [elmSection] at h
    by_cases h1 : r.rtyp ≠ 1900
    · rw [if_pos h1] at h
      simp at h
    · rw [if_neg h1] at h
      obtain ⟨q, hq, h⟩ := exbind_ok_inv h
      obtain ⟨blocks, hbl, h⟩ := exbind_ok_inv h
      have hp : (blocks, q.2) = p := by simpa using h
      rw [← hp]
      exact fun v hv => elmMerge_ok q.1 blocks hbl v hv

theorem init_ok_inv {recs : List Rec} {m : AbqFil} (h : AbqFil.init recs = .ok m) :
    (∃ rs p, elmSection rs = .ok p ∧ m.elm = p.1) ∧
    (∃ rs p, surfSection rs = .ok p ∧ m.dsurf = p.1 ∧ m.rsurf = p.2.1) := by
  cases recs with
  | nil => simp [AbqFil.init] at h
  | cons r0 rest0 =>
    simp only [AbqFil.init] at h
    by_cases h1 : r0.rtyp ≠ 1921
    · rw [if_pos h1] at h
      simp at h
    · rw [if_neg h1] at h
      obtain ⟨L, hL, h⟩ := exbind_ok_inv h
      obtain ⟨pelm, hpelm, h⟩ := exbind_ok_inv h
      obtain ⟨pnod, hpnod, h⟩ := exbind_ok_inv h
      obtain ⟨pels, hpels, h⟩ := exbind_ok_inv h
      obtain ⟨pnse, hpnse, h⟩ := exbind_ok_inv h
      obtain ⟨plab, hplab, h⟩ := exbind_ok_inv h
      split at h
      · simp at h
      · split at h
        · simp at h
        · split at h
          · simp at h
          · split at h
            · simp at h
            · split at h
              · simp at h
              · obtain ⟨psur, hpsur, h⟩ := exbind_ok_inv h
                split at h
                · simp at h
                · split at h
                  · simp at h
                  · split at h
                    · simp at h
                    · obtain ⟨L2, hL2, h⟩ := exbind_ok_inv h
                      split at h
                      · split at h
                        · injection h with h
                          subst h
                          exact ⟨⟨rest0, pelm, hpelm, rfl⟩, ⟨_, psur, hpsur, rfl, rfl⟩⟩
                        · simp at h
                      · split at h
                        · injection h with h
                          subst h
                          exact ⟨⟨rest0, pelm, hpelm, rfl⟩, ⟨_, psur, hpsur, rfl, rfl⟩⟩
                        · simp at h

/-- C7: in every successfully constructed model, each element block is
non-empty, carries one uniform element-type tag across its rows, and its
element numbers are strictly increasing (no repetitions).  Non-consecutive
but strictly increasing numbering is accepted — the source only logs a
warning for it, which alters no returned structure (the witness model's
block carries the non-consecutive numbers 1 and 5). -/
theorem c7_element_blocks (recs : List Rec) (m : AbqFil)
    (h : AbqFil.init recs = .ok m) :
    ∀ v ∈ m.elm, v ≠ [] ∧ (∀ e ∈ v, e.eltyp = (v.headD ⟨0, 0, []⟩).eltyp) ∧
      _issorted_strict (v.map (·.elnum)) = true := by
  obtain ⟨⟨rs, p, hp, hm⟩, -⟩ := init_ok_inv h
  rw [hm]
  exact elmSection_ok hp

theorem c7_witness :
    AbqFil.init exStream = .ok exModel ∧
    ∀ v ∈ exModel.elm, v ≠ [] ∧ (∀ e ∈ v, e.eltyp = (v.headD ⟨0, 0, []⟩).eltyp) ∧
      _issorted_strict (v.map (·.elnum)) = true :=
  ⟨by rfl, c7_element_blocks exStream exModel (by rfl)⟩

theorem surfPut_mem : ∀ (st : List (Int × Surf)) (k : Int) (v : Surf) (a : Int) (b : Surf),
    (a, b) ∈ surfPut st k v → (a, b) ∈ st ∨ b = v := by
  intro st k v a b
  induction st with
  | nil =>
    intro h
    simp [surfPut] at h
    exact Or.inr h.2
  | cons kv rest ih =>
    obtain ⟨q, w⟩ := kv
    intro h
    simp only [surfPut] at h
    by_cases hk : q = k
    · rw [if_pos hk] at h
      rcases List.mem_cons.mp h with he | hm
      · injection he with h1 h2
        exact Or.inr h2
      · exact Or.inl (List.mem_cons_of_mem _ hm)
    · rw [if_neg hk] at h
      rcases List.mem_cons.mp h with he | hm
      · exact Or.inl (he ▸ List.mem_cons_self _ _)
      · rcases ih hm with h1 | h2
        · exact Or.inl (List.mem_cons_of_mem _ h1)
        · exact Or.inr h2

theorem surfGo_inv : ∀ (fuel : Nat) (ds rs : List (Int × Surf)) (recs : List Rec)
    (out : List (Int × Surf) × List (Int × Surf) × List Rec),
    surfGo fuel ds rs recs = .ok out →
    (∀ kv ∈ ds, surfOK kv.2 = true) → (∀ kv ∈ rs, surfOK kv.2 = true) →
    (∀ kv ∈ out.1, surfOK kv.2 = true) ∧ (∀ kv ∈ out.2.1, surfOK kv.2 = true) := by
  intro fuel
  induction fuel with
  | zero =>
    intro ds rs recs out h hds hrs
    cases recs <;> simp [surfGo] at h
  | succ f ih =>
    intro ds rs recs out h hds hrs
    cases recs with
    | nil => simp [surfGo] at h
    | cons r rest =>
      simp only [surfGo] at h
      by_cases h1 : r.rtyp ≠ 1501
      · rw [if_pos h1] at h
        have hout : (ds, rs, r :: rest) = out := by simpa using h
        rw [← hout]
        exact ⟨hds, hrs⟩
      · rw [if_neg h1] at h
        obtain ⟨L, hL, h⟩ := exbind_ok_inv h
        split at h
        · simp at h
        · split at h
          · simp at h
          · obtain ⟨kind, hkind, h⟩ := exbind_ok_inv h
            split at h
            · simp at h
            · split at h
              · simp at h
              · obtain ⟨fp, hfp, h⟩ := exbind_ok_inv h
                split at h
                · simp at h
                · split at h
                  · simp at h
                  · rename_i hall hsum
                    have hsurf : surfOK ⟨lowI32 (r.rdat.getD 1 0), lowI32 (r.rdat.getD 3 0),
                        kind, fp.1⟩ = true := by
                      simp only [surfOK, Bool.and_eq_true, beq_iff_eq]
                      exact ⟨not_not.mp hall, not_not.mp hsum⟩
                    split at h
                    · refine ih _ _ _ _ h ?_ hrs
                      intro kv hkv
                      obtain ⟨a, b⟩ := kv
                      rcases surfPut_mem ds _ _ a b hkv with hin | rfl
                      · exact hds ⟨a, b⟩ hin
                      · exact hsurf
                    · refine ih _ _ _ _ h hds ?_
                      intro kv hkv
                      obtain ⟨a, b⟩ := kv
                      rcases surfPut_mem rs _ _ a b hkv with hin | rfl
                      · exact hrs ⟨a, b⟩ hin
                      · exact hsurf

/-- C3: in every successfully constructed model, every surface (deformable
or rigid) satisfies the facet invariant: the summed row count of its facet
blocks equals the header-declared facet count, and each block's element
numbers are non-decreasing; and a surface section violating either
condition — a declared count of 2 over a single one-row block, or a block
with decreasing element numbers — fails with `StructuralError` instead of
producing surfaces. -/
theorem c3_surface_invariants (recs : List Rec) (m : AbqFil)
    (h : AbqFil.init recs = .ok m) :
    ((∀ kv ∈ m.dsurf, surfOK kv.2 = true) ∧ (∀ kv ∈ m.rsurf, surfOK kv.2 = true)) ∧
    surfSection [⟨1501, [0, 2, 2, 2, 9]⟩, ⟨1502, [1, 0, 1, 9]⟩, ⟨2000, []⟩] =
      .error .structural ∧
    surfSection [⟨1501, [0, 2, 2, 2, 9]⟩, ⟨1502, [2, 0, 1, 8]⟩, ⟨1502, [1, 0, 1, 9]⟩,
      ⟨2000, []⟩] = .error .structural := by
  refine ⟨?_, by rfl, by rfl⟩
  obtain ⟨-, ⟨rs, p, hp, hds, hrs⟩⟩ := init_ok_inv h
  rw [hds, hrs]
  have := surfGo_inv rs.length [] [] rs p hp (by simp) (by simp)
  exact ⟨this.1, this.2⟩

theorem c3_witness :
    AbqFil.init exStream = .ok exModel ∧
    (((∀ kv ∈ exModel.dsurf, surfOK kv.2 = true) ∧
        (∀ kv ∈ exModel.rsurf, surfOK kv.2 = true)) ∧
      surfSection [⟨1501, [0, 2, 2, 2, 9]⟩, ⟨1502, [1, 0, 1, 9]⟩, ⟨2000, []⟩] =
        .error .structural ∧
      surfSection [⟨1501, [0, 2, 2, 2, 9]⟩, ⟨1502, [2, 0, 1, 8]⟩, ⟨1502, [1, 0, 1, 9]⟩,
        ⟨2000, []⟩] = .error .structural) :=
  ⟨by rfl, c3_surface_invariants exStream exModel (by rfl)⟩
